import Mathlib

/-!
Verification of the IndCat movie-catalog addon (`src/app.py`) against its
natural-language specification.  The Python source is shallowly embedded:
dictionaries become structures with `Option` fields (Python's `dict.get`
returning `None`), network calls become oracle functions supplied as
parameters, exceptions become explicit `none` / error constructors, and the
global `movie_cache` plus running background threads become an explicit
state record threaded through the handlers.
-/

namespace IndCat

/-- A raw TMDB movie record, as consumed by `fetch_and_cache_movies` and
`to_stremio_meta`.  Fields accessed via `movie.get(...)` in Python are
`Option`s; `imdbId` is the `"imdb_id"` key that the fetch loop writes into
the dict (`movie["imdb_id"] = imdb_id`). -/
structure Movie where
  id : Option Nat
  title : Option String
  posterPath : Option String
  backdropPath : Option String
  overview : Option String
  releaseDate : Option String
  imdbId : Option String
  deriving DecidableEq, Repr

/-- Result of the watch/providers lookup for one movie: whether
`"results"` is present in the JSON, whether `"IN"` is present inside it,
and whether `"flatrate"` is present inside that.  `hasIN` is only
meaningful when `hasResults`, and `hasFlatrate` only when both hold,
mirroring the nested `in` checks of the source. -/
structure Prov where
  hasResults : Bool
  hasIN : Bool
  hasFlatrate : Bool
  deriving DecidableEq, Repr

/-- The two per-item enrichment lookups for one TMDB movie id.
`prov = none` models an exception raised while fetching/parsing the
providers response; `ext = none` models an exception in the external-ids
request; `ext = some i?` gives `ext_data.get("imdb_id")`. -/
structure Enrich where
  prov : Option Prov
  ext : Option (Option String)
  deriving DecidableEq, Repr

/-- Python truthiness of `movie.get("id")`: present and nonzero. -/
def truthyNat : Option Nat → Bool
  | none => false
  | some n => n != 0

/-- Python truthiness of an optional string: present and nonempty. -/
def truthyStr : Option String → Bool
  | none => false
  | some s => s != ""

/-- Python's `s.startswith(pre)`. -/
def pyStartsWith (s pre : String) : Bool := pre.data.isPrefixOf s.data

/-- The body of the inner `for movie in results` loop of
`fetch_and_cache_movies`: skip when id or title is falsy; look up
providers (exception ⇒ skip); require `"results"`/`"IN"`/`"flatrate"`;
look up external ids (exception ⇒ skip); require a truthy `imdb_id`
starting with `"tt"`; on success return the movie with `imdb_id` set. -/
def processMovie (en : Nat → Enrich) (m : Movie) : Option Movie :=
  match m.id, m.title with
  | some i, some t =>
    if i == 0 || t == "" then none
    else
      match (en i).prov with
      | none => none
      | some p =>
        if p.hasResults && p.hasIN && p.hasFlatrate then
          match (en i).ext with
          | none => none
          | some imdb? =>
            match imdb? with
            | none => none
            | some imdb =>
              if imdb != "" && pyStartsWith imdb "tt" then
                some { m with imdbId := some imdb }
              else none
        else none
  | _, _ => none

/-- Processing one discovery page's `results` list: the `for` loop appends
each accepted movie to `final_movies`, i.e. a `filterMap`. -/
def processPage (en : Nat → Enrich) (results : List Movie) : List Movie :=
  results.filterMap (processMovie en)

/-- Outcome of one `requests.get(discover/movie)` call.
`exn` models a raised exception (timeout, connection error, bad JSON);
`resp status results` models a response with the given status code and
`response.json().get("results", [])`. -/
inductive PageResult where
  | exn
  | resp (status : Nat) (results : List Movie)
  deriving DecidableEq, Repr

/-- The discovery loop `for page in range(1, 1000)` of
`fetch_and_cache_movies`, iterating from `page` with `fuel` iterations
left.  Returns the collected `final_movies` together with the number of
pages actually requested.  Breaks on exception, on status ≠ 200, and on an
empty results list. -/
def fetchLoop (oracle : Nat → PageResult) (en : Nat → Enrich) :
    Nat → Nat → List Movie × Nat
  | _, 0 => ([], 0)
  | page, fuel + 1 =>
    match oracle page with
    | .exn => ([], 1)
    | .resp status results =>
      if status != 200 then ([], 1)
      else if results.isEmpty then ([], 1)
      else (processPage en results ++ (fetchLoop oracle en (page + 1) fuel).1,
            (fetchLoop oracle en (page + 1) fuel).2 + 1)

/-- `final_movies` at the end of the page loop: `range(1, 1000)` iterates
pages 1 through 999. -/
def collectMovies (oracle : Nat → PageResult) (en : Nat → Enrich) : List Movie :=
  (fetchLoop oracle en 1 999).1

/-- Number of discovery pages requested in one run. -/
def pagesRequested (oracle : Nat → PageResult) (en : Nat → Enrich) : Nat :=
  (fetchLoop oracle en 1 999).2

/-- The deduplication pass of `fetch_and_cache_movies`: keep a movie when
its `imdb_id` is truthy and not in `seen_ids`, adding it to `seen_ids`. -/
def dedupLoop : List Movie → List String → List Movie
  | [], _ => []
  | m :: ms, seen =>
    match m.imdbId with
    | none => dedupLoop ms seen
    | some i =>
      if i != "" && !seen.contains i then m :: dedupLoop ms (i :: seen)
      else dedupLoop ms seen

/-- `unique_movies`: deduplicate `final_movies` by IMDb id,
first occurrence kept. -/
def dedupMovies (l : List Movie) : List Movie := dedupLoop l []

/-- The global `movie_cache` dict, keyed by `f"{api_key}_{language}"`. -/
def CacheMap : Type := String → Option (List Movie)

/-- `cache_key = f"{api_key}_{language}"`. -/
def cacheKey (apiKey language : String) : String := apiKey ++ "_" ++ language

/-- `fetch_and_cache_movies(api_key, language)`: collect over discovery
pages, deduplicate, then write `movie_cache[cache_key] = unique_movies`
(under `cache_lock`) and return the list.  Every run reaches the cache
write: all request failures are caught inside the loop. -/
def fetch_and_cache_movies (oracle : Nat → PageResult) (en : Nat → Enrich)
    (apiKey language : String) (cache : CacheMap) : List Movie × CacheMap :=
  let unique := dedupMovies (collectMovies oracle en)
  (unique, fun k => if k = cacheKey apiKey language then some unique else cache k)

/-! ### Python `int()` conversion, string truthiness, slicing -/

/-- Whitespace accepted by Python's `int(str)` (stripped fore and aft). -/
def isPySpace (c : Char) : Bool :=
  c == ' ' || c == '\t' || c == '\n' || c == '\r' || c == '\x0b' || c == '\x0c'

/-- Decimal digit value of a character, if it is `'0'`–`'9'`. -/
def pyDigit? (c : Char) : Option Nat :=
  if 48 ≤ c.toNat && c.toNat ≤ 57 then some (c.toNat - 48) else none

/-- Digits after the first one, allowing a single underscore between two
digits (as Python's `int` literal grammar does). -/
def pyIntRest : Nat → List Char → Option Nat
  | acc, [] => some acc
  | acc, c :: rest =>
    if c = '_' then
      match rest with
      | [] => none
      | c2 :: rest2 =>
        match pyDigit? c2 with
        | some d => pyIntRest (acc * 10 + d) rest2
        | none => none
    else
      match pyDigit? c with
      | some d => pyIntRest (acc * 10 + d) rest
      | none => none

/-- Python's `int(s)` on a string: strip whitespace, optional sign, then
one or more decimal digits.  `none` models the `ValueError` it raises on
anything else. -/
def pyInt (s : String) : Option Int :=
  let cs := ((s.toList.dropWhile isPySpace).reverse.dropWhile isPySpace).reverse
  let signed : Int × List Char :=
    match cs with
    | '-' :: rest => (-1, rest)
    | '+' :: rest => (1, rest)
    | _ => (1, cs)
  match signed.2 with
  | [] => none
  | c :: rest =>
    match pyDigit? c with
    | some d => (pyIntRest d rest).map (fun n => signed.1 * n)
    | none => none

/-- Python index clamping for a slice bound `i` on a list of length
`len`: negative indices count from the end, then the bound is clamped to
`[0, len]`. -/
def pyIndex (len : Nat) (i : Int) : Nat :=
  if i < 0 then (i + len).toNat else min i.toNat len

/-- Python `l[a:b]` for integer bounds. -/
def pySlice {α : Type} (l : List α) (a b : Int) : List α :=
  (l.take (pyIndex l.length b)).drop (pyIndex l.length a)

/-! ### `to_stremio_meta` -/

/-- A Stremio meta object as built by `to_stremio_meta`. -/
structure Meta where
  id : String
  type : String
  name : String
  poster : Option String
  description : String
  releaseInfo : String
  background : Option String
  deriving DecidableEq, Repr

/-- `to_stremio_meta(movie)`: `None` unless `imdb_id` and `title` are
truthy; poster/background URLs are derived only when the corresponding
path is truthy.  The body raises no exception in this model, so the
`except` branch is unreachable. -/
def to_stremio_meta (m : Movie) : Option Meta :=
  if truthyStr m.imdbId && truthyStr m.title then
    some
      { id := m.imdbId.getD ""
        type := "movie"
        name := m.title.getD ""
        poster :=
          match m.posterPath with
          | some p => if p = "" then none else some ("https://image.tmdb.org/t/p/w500" ++ p)
          | none => none
        description := m.overview.getD ""
        releaseInfo := m.releaseDate.getD ""
        background :=
          match m.backdropPath with
          | some p => if p = "" then none else some ("https://image.tmdb.org/t/p/w780" ++ p)
          | none => none }
  else none

/-! ### base64 (`base64.b64encode` / `base64.b64decode`, standard alphabet) -/

/-- The standard base64 alphabet as a list of 64 characters. -/
def b64Alphabet : List Char :=
  ['A', 'B', 'C', 'D', 'E', 'F', 'G', 'H', 'I', 'J', 'K', 'L', 'M',
   'N', 'O', 'P', 'Q', 'R', 'S', 'T', 'U', 'V', 'W', 'X', 'Y', 'Z',
   'a', 'b', 'c', 'd', 'e', 'f', 'g', 'h', 'i', 'j', 'k', 'l', 'm',
   'n', 'o', 'p', 'q', 'r', 's', 't', 'u', 'v', 'w', 'x', 'y', 'z',
   '0', '1', '2', '3', '4', '5', '6', '7', '8', '9', '+', '/']

/-- Character for a 6-bit group. -/
def b64Char (n : Nat) : Char := b64Alphabet.getD n '?'

/-- Inverse of the base64 alphabet; `none` for characters outside it. -/
def b64CharIndex (c : Char) : Option Nat :=
  if 65 ≤ c.toNat && c.toNat ≤ 90 then some (c.toNat - 65)
  else if 97 ≤ c.toNat && c.toNat ≤ 122 then some (c.toNat - 97 + 26)
  else if 48 ≤ c.toNat && c.toNat ≤ 57 then some (c.toNat - 48 + 52)
  else if c = '+' then some 62
  else if c = '/' then some 63
  else none

/-- `base64.b64encode` over a byte list: groups of three bytes become four
alphabet characters; a final group of two or one byte is padded with
`'='`. -/
def b64EncodeBytes : List Nat → List Char
  | b1 :: b2 :: b3 :: rest =>
    b64Char (b1 / 4) :: b64Char (b1 % 4 * 16 + b2 / 16) ::
      b64Char (b2 % 16 * 4 + b3 / 64) :: b64Char (b3 % 64) :: b64EncodeBytes rest
  | [b1, b2] => [b64Char (b1 / 4), b64Char (b1 % 4 * 16 + b2 / 16), b64Char (b2 % 16 * 4), '=']
  | [b1] => [b64Char (b1 / 4), b64Char (b1 % 4 * 16), '=', '=']
  | [] => []

/-- `base64.b64decode` over a character list: four characters yield three
bytes, with `'='` padding closing the input; `none` models the
`binascii.Error` raised on malformed input (caught by
`decode_user_config`). -/
def b64DecodeBytes : List Char → Option (List Nat)
  | [] => some []
  | c1 :: c2 :: c3 :: c4 :: rest =>
    (b64CharIndex c1).bind fun n1 =>
      (b64CharIndex c2).bind fun n2 =>
        if c3 = '=' then
          if c4 = '=' ∧ rest = [] then some [n1 * 4 + n2 / 16] else none
        else
          (b64CharIndex c3).bind fun n3 =>
            if c4 = '=' then
              if rest = [] then some [n1 * 4 + n2 / 16, n2 % 16 * 16 + n3 / 4] else none
            else
              (b64CharIndex c4).bind fun n4 =>
                (b64DecodeBytes rest).map fun bs =>
                  (n1 * 4 + n2 / 16) :: (n2 % 16 * 16 + n3 / 4) :: (n3 % 4 * 64 + n4) :: bs
  | _ => none

/-! ### UTF-8 (`str.encode("utf-8")` / `bytes.decode("utf-8")`) -/

/-- UTF-8 encoding of one unicode scalar value as 1–4 bytes. -/
def utf8EncodeChar (c : Char) : List Nat :=
  let n := c.toNat
  if n < 128 then [n]
  else if n < 2048 then [192 + n / 64, 128 + n % 64]
  else if n < 65536 then [224 + n / 4096, 128 + n / 64 % 64, 128 + n % 64]
  else [240 + n / 262144, 128 + n / 4096 % 64, 128 + n / 64 % 64, 128 + n % 64]

/-- `str.encode("utf-8")`. -/
def utf8Encode (s : List Char) : List Nat := (s.map utf8EncodeChar).flatten

/-- Is `b` a UTF-8 continuation byte (`10xxxxxx`)? -/
def isCont (b : Nat) : Bool := 128 ≤ b && b < 192

/-- Decode one UTF-8 sequence starting with byte `b1`: the code point
and the remaining bytes.  Rejects malformed sequences, overlong
encodings and surrogate code points. -/
def utf8DecodeStep (b1 : Nat) (rest : List Nat) : Option (Nat × List Nat) :=
  if b1 < 128 then some (b1, rest)
  else if b1 < 192 then none
  else if b1 < 224 then
    match rest with
    | b2 :: rest2 =>
      if isCont b2 then
        if 128 ≤ (b1 - 192) * 64 + (b2 - 128) then
          some ((b1 - 192) * 64 + (b2 - 128), rest2)
        else none
      else none
    | [] => none
  else if b1 < 240 then
    match rest with
    | b2 :: b3 :: rest3 =>
      if isCont b2 && isCont b3 then
        if 2048 ≤ (b1 - 224) * 4096 + (b2 - 128) * 64 + (b3 - 128)
            ∧ ¬ (55296 ≤ (b1 - 224) * 4096 + (b2 - 128) * 64 + (b3 - 128)
                  ∧ (b1 - 224) * 4096 + (b2 - 128) * 64 + (b3 - 128) ≤ 57343) then
          some ((b1 - 224) * 4096 + (b2 - 128) * 64 + (b3 - 128), rest3)
        else none
      else none
    | _ => none
  else if b1 < 248 then
    match rest with
    | b2 :: b3 :: b4 :: rest4 =>
      if isCont b2 && isCont b3 && isCont b4 then
        if 65536 ≤ (b1 - 240) * 262144 + (b2 - 128) * 4096 + (b3 - 128) * 64 + (b4 - 128)
            ∧ (b1 - 240) * 262144 + (b2 - 128) * 4096 + (b3 - 128) * 64 + (b4 - 128)
                < 1114112 then
          some ((b1 - 240) * 262144 + (b2 - 128) * 4096 + (b3 - 128) * 64 + (b4 - 128),
            rest4)
        else none
      else none
    | _ => none
  else none

/-- Decode a byte list one UTF-8 sequence at a time; the fuel bounds the
number of sequences (each consumes at least one byte, so the byte count
is enough fuel). -/
def utf8DecodeLoop : Nat → List Nat → Option (List Char)
  | _, [] => some []
  | 0, _ :: _ => none
  | fuel + 1, b1 :: rest =>
    match utf8DecodeStep b1 rest with
    | none => none
    | some (n, rest2) =>
      match utf8DecodeLoop fuel rest2 with
      | none => none
      | some cs => some (Char.ofNat n :: cs)

/-- `bytes.decode("utf-8")`: decode a byte list (`none` models the
raised `UnicodeDecodeError`, caught by `decode_user_config`). -/
def utf8Decode (bs : List Nat) : Option (List Char) := utf8DecodeLoop bs.length bs

/-! ### JSON (`json.dumps` / `json.loads`)

JSON values as exchanged by `encode_user_config` / `decode_user_config`.
Objects are association lists of string keys; numbers are integers (the
configuration produced by `/configure` holds only strings and string
lists).  `serialize` models `json.dumps` with its default separators
`", "` and `": "`; non-ASCII characters are emitted literally (UTF-8
encoded downstream) rather than `\uXXXX`-escaped, and inside strings the
quote and backslash are escaped. -/
inductive Json where
  | null
  | bool (b : Bool)
  | num (n : Int)
  | str (s : List Char)
  | arr (elems : List Json)
  | obj (fields : List (List Char × Json))

/-- String escaping for one character: `"` and `\` get a backslash. -/
def escapeChar (c : Char) : List Char :=
  if c = '"' ∨ c = '\\' then ['\\', c] else [c]

/-- Escape a whole string body. -/
def escapeStr (s : List Char) : List Char := (s.map escapeChar).flatten

/-- Decimal digit characters of a natural number. -/
def natChars (n : Nat) : List Char :=
  if n = 0 then ['0'] else ((Nat.digits 10 n).map Nat.digitChar).reverse

/-- Decimal representation of an integer. -/
def intChars (n : Int) : List Char :=
  if n < 0 then '-' :: natChars n.natAbs else natChars n.toNat

mutual

/-- `json.dumps` over the JSON model. -/
def serialize : Json → List Char
  | .num n => intChars n
  | .str s => '"' :: (escapeStr s ++ ['"'])
  | .null => "null".data
  | .bool true => "true".data
  | .bool false => "false".data
  | .arr [] => "[]".data
  | .arr (v :: vs) => '[' :: (serialize v ++ serializeTail vs ++ [']'])
  | .obj [] => "{}".data
  | .obj (kv :: kvs) => '{' :: (serializeKV kv ++ serializeKVTail kvs ++ ['}'])

/-- Remaining array elements, each preceded by `", "`. -/
def serializeTail : List Json → List Char
  | [] => []
  | v :: vs => ',' :: ' ' :: (serialize v ++ serializeTail vs)

/-- One `"key": value` pair. -/
def serializeKV : List Char × Json → List Char
  | (k, v) => '"' :: (escapeStr k ++ '"' :: ':' :: ' ' :: serialize v)

/-- Remaining object members, each preceded by `", "`. -/
def serializeKVTail : List (List Char × Json) → List Char
  | [] => []
  | kv :: kvs => ',' :: ' ' :: (serializeKV kv ++ serializeKVTail kvs)

end

mutual

/-- Number of parser steps needed for a value (used as a fuel bound). -/
def jsonSize : Json → Nat
  | .null => 1
  | .bool _ => 1
  | .num _ => 1
  | .str _ => 1
  | .arr vs => 1 + jsonSizeList vs
  | .obj kvs => 1 + jsonSizeFields kvs

/-- Fuel bound for a non-empty-array tail. -/
def jsonSizeList : List Json → Nat
  | [] => 0
  | v :: vs => 1 + jsonSize v + jsonSizeList vs

/-- Fuel bound for a non-empty-object tail. -/
def jsonSizeFields : List (List Char × Json) → Nat
  | [] => 0
  | kv :: kvs => 1 + jsonSize kv.2 + jsonSizeFields kvs

end

/-- JSON whitespace skipped by the decoder. -/
def isJsonSpace (c : Char) : Bool := c == ' ' || c == '\t' || c == '\n' || c == '\r'

/-- Skip leading JSON whitespace. -/
def skipSpaces (s : List Char) : List Char := s.dropWhile isJsonSpace

/-- Is `c` one of `'0'`–`'9'`? -/
def isDigitCh (c : Char) : Bool := 48 ≤ c.toNat && c.toNat ≤ 57

/-- Resolve a backslash escape: control-character escapes map to their
character, anything else (in particular `"` and `\`) to itself. -/
def unescapeChar (c : Char) : Char :=
  if c = 'n' then '\n'
  else if c = 't' then '\t'
  else if c = 'r' then '\r'
  else if c = 'b' then '\x08'
  else if c = 'f' then '\x0c'
  else c

/-- Parse a string body after the opening quote, up to the closing
quote; returns the unescaped string and the remaining input. -/
def parseStringBody : List Char → Option (List Char × List Char)
  | [] => none
  | c :: rest =>
    if c = '"' then some ([], rest)
    else if c = '\\' then
      match rest with
      | [] => none
      | e :: rest2 => (parseStringBody rest2).map fun p => (unescapeChar e :: p.1, p.2)
    else (parseStringBody rest).map fun p => (c :: p.1, p.2)

/-- Parse a run of decimal digits into a natural number. -/
def parseNatChars (s : List Char) : Option (Nat × List Char) :=
  let digs := s.takeWhile isDigitCh
  if digs.isEmpty then none
  else some (digs.foldl (fun a c => a * 10 + (c.toNat - 48)) 0, s.dropWhile isDigitCh)

/-- Parse an integer: optional minus sign, then digits. -/
def parseNumber (s : List Char) : Option (Int × List Char) :=
  match s with
  | [] => none
  | c :: rest =>
    if c = '-' then (parseNatChars rest).map fun p => (-(p.1 : Int), p.2)
    else (parseNatChars (c :: rest)).map fun p => ((p.1 : Int), p.2)

mutual

/-- Recursive-descent JSON parser with explicit fuel, modelling
`json.loads` on the grammar `serialize` emits.  Returns the value and
the unconsumed input. -/
def parseJson : Nat → List Char → Option (Json × List Char)
  | 0, _ => none
  | fuel + 1, s0 =>
    match skipSpaces s0 with
    | [] => none
    | c :: rest =>
      if c = 'n' then
        match rest with
        | 'u' :: 'l' :: 'l' :: r => some (.null, r)
        | _ => none
      else if c = 't' then
        match rest with
        | 'r' :: 'u' :: 'e' :: r => some (.bool true, r)
        | _ => none
      else if c = 'f' then
        match rest with
        | 'a' :: 'l' :: 's' :: 'e' :: r => some (.bool false, r)
        | _ => none
      else if c = '"' then
        (parseStringBody rest).map fun p => (Json.str p.1, p.2)
      else if c = '[' then
        let r := skipSpaces rest
        if r.head? = some ']' then some (.arr [], r.tail)
        else (parseItems fuel r).map fun p => (Json.arr p.1, p.2)
      else if c = '{' then
        let r := skipSpaces rest
        if r.head? = some '}' then some (.obj [], r.tail)
        else (parseFields fuel r).map fun p => (Json.obj p.1, p.2)
      else if c = '-' || isDigitCh c then
        (parseNumber (c :: rest)).map fun p => (Json.num p.1, p.2)
      else none

/-- Parse the elements of a non-empty array, consuming the closing
bracket. -/
def parseItems : Nat → List Char → Option (List Json × List Char)
  | 0, _ => none
  | fuel + 1, s =>
    (parseJson fuel s).bind fun p =>
      match skipSpaces p.2 with
      | ',' :: r => (parseItems fuel r).map fun q => (p.1 :: q.1, q.2)
      | ']' :: r => some ([p.1], r)
      | _ => none

/-- Parse the members of a non-empty object, consuming the closing
brace. -/
def parseFields : Nat → List Char → Option (List (List Char × Json) × List Char)
  | 0, _ => none
  | fuel + 1, s =>
    match skipSpaces s with
    | '"' :: r =>
      (parseStringBody r).bind fun pk =>
        match skipSpaces pk.2 with
        | ':' :: r2 =>
          (parseJson fuel r2).bind fun pv =>
            match skipSpaces pv.2 with
            | ',' :: r3 => (parseFields fuel r3).map fun q => ((pk.1, pv.1) :: q.1, q.2)
            | '}' :: r3 => some ([(pk.1, pv.1)], r3)
            | _ => none
        | _ => none
    | _ => none

end

/-- `json.loads`: parse, then require that only whitespace remains. -/
def jsonLoads (s : List Char) : Option Json :=
  match parseJson (2 * s.length + 1) s with
  | some (v, rest) => if skipSpaces rest = [] then some v else none
  | none => none

/-! ### `encode_user_config` / `decode_user_config` -/

/-- `encode_user_config(config_dict)`:
`base64.b64encode(json.dumps(config_dict).encode("utf-8"))`. -/
def encode_user_config (config : Json) : List Char :=
  b64EncodeBytes (utf8Encode (serialize config))

/-- `decode_user_config(config_string)`:
`json.loads(base64.b64decode(config_string).decode("utf-8"))`, with any
exception caught and turned into `None`. -/
def decode_user_config (s : List Char) : Option Json :=
  match b64DecodeBytes s with
  | none => none
  | some bs =>
    match utf8Decode bs with
    | none => none
    | some cs => jsonLoads cs

/-! ### The `catalog` route and the background-fetch state machine

The process state is the global `movie_cache` plus the multiset of
background `fetch_and_cache_movies` threads currently running (each
`threading.Thread(...).start()` adds one; a thread finishing its cache
write removes one).  The `catalog` handler performs its check-and-spawn
under `cache_lock`, which is what the atomicity of one `readStep`
models; but the code stores no in-flight marker, so a running fetch is
invisible to the next read. -/

structure SysState where
  cache : CacheMap
  inflight : List String

/-- Python `str(...)` interpolation of a decoded JSON value into the
f-string `f"{api_key}_{language}"`: a JSON string interpolates as
itself; other values via their JSON text (adequate for the claims, which
use string credentials). -/
def pyStr : Json → String
  | .str s => String.mk s
  | v => String.mk (serialize v)

/-- `config["api_key"]` on a decoded JSON object (Python's `json.loads`
builds a dict, where a duplicated key keeps its last value). -/
def lookupKey (key : List Char) (kvs : List (List Char × Json)) : Option Json :=
  (kvs.reverse.find? fun kv => kv.1 = key).map (·.2)

/-- The response of the `catalog` route.  `pyError` models an uncaught
exception propagating out of the handler (HTTP 500), as opposed to the
deliberate 400 of an invalid configuration. -/
inductive CatalogResponse where
  | badRequest
  | metas (ms : List Meta)
  | pyError (msg : String)
  deriving DecidableEq, Repr

/-- The `catalog(config_string, language)` route handler.  Decode the
configuration (invalid ⇒ 400); convert the `skip` query parameter with a
bare `int()` (absent ⇒ default `0`; non-numeric ⇒ uncaught
`ValueError`); under `cache_lock`, on a cache miss start a background
fetch thread and answer `{"metas": []}`, on a hit slice
`cached_movies[skip:skip+100]` and convert each movie with
`to_stremio_meta`, dropping `None`s.

Model scope: a decoded configuration that is neither a JSON object nor
`None` is answered with 400 here; the claims only exercise object
configurations (for some exotic non-dict values CPython would instead
raise at `"api_key" not in config`). -/
def catalog (cfgString : List Char) (language : String) (skipParam : Option String)
    (s : SysState) : CatalogResponse × SysState :=
  match decode_user_config cfgString with
  | some (.obj kvs) =>
    if kvs.isEmpty then (.badRequest, s)
    else
      match lookupKey ['a', 'p', 'i', '_', 'k', 'e', 'y'] kvs with
      | none => (.badRequest, s)
      | some apiKeyVal =>
        let apiKey := pyStr apiKeyVal
        match (match skipParam with | none => some (0 : Int) | some str => pyInt str) with
        | none => (.pyError "ValueError", s)
        | some skip =>
          let key := cacheKey apiKey language
          match s.cache key with
          | none => (.metas [], { s with inflight := key :: s.inflight })
          | some cached =>
            let paginated := pySlice cached skip (skip + 100)
            (.metas (paginated.filterMap to_stremio_meta), s)
  | _ => (.badRequest, s)

/-- A background fetch thread finishing: it performs the cache write of
`fetch_and_cache_movies` and leaves the in-flight multiset. -/
def fetchFinish (oracle : Nat → PageResult) (en : Nat → Enrich)
    (apiKey language : String) (s : SysState) : SysState :=
  { cache := (fetch_and_cache_movies oracle en apiKey language s.cache).2
    inflight := s.inflight.erase (cacheKey apiKey language) }

/-- The process state at startup: empty cache, no background threads. -/
def initialState : SysState := { cache := fun _ => none, inflight := [] }

/-- A concrete user configuration `{"api_key": "k"}` and its encoded
form, used as explicit inputs below. -/
def demoConfig : Json := .obj [(['a', 'p', 'i', '_', 'k', 'e', 'y'], .str ['k'])]

/-- `encode_user_config({"api_key": "k"})`. -/
def demoConfigString : List Char := encode_user_config demoConfig

/-! ### Predicates used by the claim statements -/

/-- Eligibility of a movie as established by the fetch pipeline: its
TMDB id was enriched to a providers response whose `"results"`/`"IN"`
entry offers `"flatrate"`, and its cross-reference identifier is
present, non-empty and `"tt"`-prefixed. -/
def eligible (en : Nat → Enrich) (m : Movie) : Prop :=
  ∃ tmdbId p imdb,
    m.id = some tmdbId
    ∧ (en tmdbId).prov = some p
    ∧ p.hasResults = true ∧ p.hasIN = true ∧ p.hasFlatrate = true
    ∧ m.imdbId = some imdb ∧ imdb ≠ "" ∧ pyStartsWith imdb "tt" = true

/-- The invariant `to_stremio_meta` relies on for cached movies: truthy
`imdb_id` and `title`. -/
def validCachedMovie (m : Movie) : Prop :=
  truthyStr m.imdbId = true ∧ truthyStr m.title = true

/-- A discovery-page outcome that terminates pagination: a raised
exception, a non-200 response, or an empty results list. -/
def pageFails (pr : PageResult) : Prop :=
  pr = .exn ∨ (∃ st res, pr = .resp st res ∧ st ≠ 200) ∨ (∃ st, pr = .resp st [])

/-! ### Concrete data for witnesses and counterexamples -/

/-- A raw discovery record with id and title but no enrichment yet. -/
def demoRawMovie : Movie :=
  { id := some 7, title := some "T", posterPath := none, backdropPath := none,
    overview := none, releaseDate := none, imdbId := none }

/-- Enrichment that always succeeds with flatrate availability and the
IMDb id `tt0007`. -/
def demoEnrich : Nat → Enrich := fun _ =>
  { prov := some { hasResults := true, hasIN := true, hasFlatrate := true },
    ext := some (some "tt0007") }

/-- Enrichment whose providers lookup always raises. -/
def failEnrich : Nat → Enrich := fun _ => { prov := none, ext := none }

/-- Discovery oracle: page 1 returns one record, page 2 onward raises. -/
def demoOracle : Nat → PageResult := fun p =>
  if p = 1 then .resp 200 [demoRawMovie] else .exn

/-- A movie as it sits in a populated cache entry. -/
def demoCachedMovie : Movie :=
  { id := some 1, title := some "A", posterPath := none, backdropPath := none,
    overview := none, releaseDate := none, imdbId := some "tt0001" }

/-- A state whose cache holds one entry for the key `k_ml`. -/
def demoState : SysState :=
  { cache := fun k => if k = "k_ml" then some [demoCachedMovie] else none,
    inflight := [] }

/-- Input whose head (if any) is not a decimal digit, so that a number
parse just before it stops exactly there. -/
def numFence (s : List Char) : Prop := ∀ c, s.head? = some c → isDigitCh c = false

/-! ## Helper lemmas about the fetch pipeline -/

theorem dedupLoop_cons_none {m : Movie} {ms : List Movie} {seen : List String}
    (h : m.imdbId = none) : dedupLoop (m :: ms) seen = dedupLoop ms seen := by
  rw [dedupLoop, h]

theorem dedupLoop_cons_some {m : Movie} {ms : List Movie} {seen : List String} {i : String}
    (h : m.imdbId = some i) :
    dedupLoop (m :: ms) seen =
      if (i != "" && !seen.contains i) = true then m :: dedupLoop ms (i :: seen)
      else dedupLoop ms seen := by
  rw [dedupLoop, h]

theorem fetchLoop_exn {oracle : Nat → PageResult} {en : Nat → Enrich} {page fuel : Nat}
    (h : oracle page = .exn) : fetchLoop oracle en page (fuel + 1) = ([], 1) := by
  rw [fetchLoop, h]

theorem fetchLoop_resp {oracle : Nat → PageResult} {en : Nat → Enrich} {page fuel st : Nat}
    {res : List Movie} (h : oracle page = .resp st res) :
    fetchLoop oracle en page (fuel + 1) =
      if st != 200 then ([], 1)
      else if res.isEmpty then ([], 1)
      else (processPage en res ++ (fetchLoop oracle en (page + 1) fuel).1,
            (fetchLoop oracle en (page + 1) fuel).2 + 1) := by
  rw [fetchLoop, h]

theorem processMovie_spec {en : Nat → Enrich} {m m' : Movie}
    (h : processMovie en m = some m') :
    eligible en m' ∧ m'.title = m.title ∧ ∃ t, m'.title = some t ∧ t ≠ "" := by
  cases hid : m.id with
  | none => simp [processMovie, hid] at h
  | some i =>
    cases htit : m.title with
    | none => simp [processMovie, hid, htit] at h
    | some t =>
      cases hp : (en i).prov with
      | none => simp [processMovie, hid, htit, hp] at h
      | some p =>
        cases he : (en i).ext with
        | none => simp [processMovie, hid, htit, hp, he] at h
        | some imdb? =>
          cases imdb? with
          | none => simp [processMovie, hid, htit, hp, he] at h
          | some imdb =>
            simp only [processMovie, hid, htit, hp, he] at h
            split_ifs at h with h1 h2 h3
            obtain rfl := Option.some_inj.mp h
            simp only [Bool.or_eq_true, beq_iff_eq, not_or, Bool.and_eq_true,
              bne_iff_ne, ne_eq] at h1 h2 h3
            exact ⟨⟨i, p, imdb, rfl, hp, h2.1.1, h2.1.2, h2.2, rfl, h3.1, h3.2⟩,
              rfl, t, rfl, h1.2⟩

theorem mem_processPage {en : Nat → Enrich} {results : List Movie} {m : Movie}
    (h : m ∈ processPage en results) :
    ∃ m₀ ∈ results, processMovie en m₀ = some m := by
  simpa [processPage, List.mem_filterMap] using h

theorem mem_fetchLoop {oracle : Nat → PageResult} {en : Nat → Enrich} {m : Movie} :
    ∀ fuel page, m ∈ (fetchLoop oracle en page fuel).1 →
      ∃ m₀, processMovie en m₀ = some m := by
  intro fuel
  induction fuel with
  | zero => intro page h; simp [fetchLoop] at h
  | succ f ih =>
    intro page h
    cases hor : oracle page with
    | exn => rw [fetchLoop_exn hor] at h; simp at h
    | resp st res =>
      rw [fetchLoop_resp hor] at h
      split_ifs at h with h1 h2
      · simp at h
      · simp at h
      · simp only [List.mem_append] at h
        cases h with
        | inl h => obtain ⟨m₀, -, hm₀⟩ := mem_processPage h; exact ⟨m₀, hm₀⟩
        | inr h => exact ih (page + 1) h

theorem mem_collectMovies {oracle : Nat → PageResult} {en : Nat → Enrich} {m : Movie}
    (h : m ∈ collectMovies oracle en) : ∃ m₀, processMovie en m₀ = some m :=
  mem_fetchLoop 999 1 h

/-! ## Helper lemmas about deduplication -/

theorem dedupLoop_sublist : ∀ (l : List Movie) (seen : List String),
    (dedupLoop l seen).Sublist l := by
  intro l
  induction l with
  | nil => intro seen; simp [dedupLoop]
  | cons m ms ih =>
    intro seen
    cases him : m.imdbId with
    | none => rw [dedupLoop_cons_none him]; exact (ih seen).cons m
    | some i =>
      rw [dedupLoop_cons_some him]
      split
      · exact (ih (i :: seen)).cons₂ m
      · exact (ih seen).cons m

theorem mem_dedupLoop : ∀ {l : List Movie} {seen : List String} {m : Movie},
    m ∈ dedupLoop l seen → ∃ i, m.imdbId = some i ∧ i ≠ "" ∧ i ∉ seen := by
  intro l
  induction l with
  | nil => intro seen m h; simp [dedupLoop] at h
  | cons a ms ih =>
    intro seen m h
    cases him : a.imdbId with
    | none => rw [dedupLoop_cons_none him] at h; exact ih h
    | some i =>
      rw [dedupLoop_cons_some him] at h
      split at h
      · rename_i hcond
        simp only [Bool.and_eq_true, bne_iff_ne, ne_eq, Bool.not_eq_true'] at hcond
        cases h with
        | head =>
          refine ⟨i, him, hcond.1, ?_⟩
          intro hmem
          have hel : seen.contains i = true := List.elem_eq_true_of_mem hmem
          rw [hel] at hcond
          exact absurd hcond.2 (by simp)
        | tail _ h =>
          obtain ⟨j, hj, hne, hnotin⟩ := ih h
          exact ⟨j, hj, hne, fun hmem => hnotin (List.mem_cons_of_mem _ hmem)⟩
      · exact ih h

theorem dedupLoop_pairwise : ∀ (l : List Movie) (seen : List String),
    List.Pairwise (fun a b => a.imdbId ≠ b.imdbId) (dedupLoop l seen) := by
  intro l
  induction l with
  | nil => intro seen; simp [dedupLoop]
  | cons m ms ih =>
    intro seen
    cases him : m.imdbId with
    | none => rw [dedupLoop_cons_none him]; exact ih seen
    | some i =>
      rw [dedupLoop_cons_some him]
      split
      · refine List.Pairwise.cons ?_ (ih (i :: seen))
        intro b hb
        obtain ⟨j, hj, -, hnotin⟩ := mem_dedupLoop hb
        rw [him, hj]
        intro hij
        exact hnotin (by simp [Option.some_inj.mp hij])
      · exact ih seen

theorem dedupLoop_first : ∀ {l : List Movie} {seen : List String} {m : Movie},
    m ∈ dedupLoop l seen → l.find? (fun x => x.imdbId == m.imdbId) = some m := by
  intro l
  induction l with
  | nil => intro seen m h; simp [dedupLoop] at h
  | cons a ms ih =>
    intro seen m h
    cases him : a.imdbId with
    | none =>
      rw [dedupLoop_cons_none him] at h
      obtain ⟨j, hj, -, -⟩ := mem_dedupLoop h
      rw [List.find?_cons_of_neg _ (by simp [him, hj]), ih h]
    | some i =>
      rw [dedupLoop_cons_some him] at h
      split at h
      · cases h with
        | head => exact List.find?_cons_of_pos _ (by simp)
        | tail _ h =>
          obtain ⟨j, hj, -, hnotin⟩ := mem_dedupLoop h
          have hji : j ≠ i := fun he => hnotin (he ▸ List.mem_cons_self i _)
          refine Eq.trans (List.find?_cons_of_neg _ ?_) (ih h)
          simp only [him, hj, beq_iff_eq, Option.some_inj]
          exact fun he => hji he.symm
      · rename_i hcond
        obtain ⟨j, hj, hne, hnotin⟩ := mem_dedupLoop h
        have hcond' : ¬ (i ≠ "" ∧ i ∉ seen) := by
          intro ⟨h1, h2⟩
          refine hcond ?_
          simp only [Bool.and_eq_true, bne_iff_ne, ne_eq, Bool.not_eq_true',
            List.contains_eq_any_beq]
          refine ⟨h1, ?_⟩
          simp only [List.any_eq_false]
          intro x hx hbeq
          exact h2 (eq_of_beq hbeq ▸ hx)
        have hji : j ≠ i := by
          intro he
          subst he
          exact hcond' ⟨hne, hnotin⟩
        refine Eq.trans (List.find?_cons_of_neg _ ?_) (ih h)
        simp only [him, hj, beq_iff_eq, Option.some_inj]
        exact fun he => hji he.symm

/-! ## Claim C3 -/

/-- **C3**: For every fetch run (any discovery oracle and any enrichment
oracle), the list `fetch_and_cache_movies` finally writes to the cache is
the first-occurrence deduplication of the collected movies: it equals
`dedupMovies` of the collected list, no two of its entries share an IMDb
identifier, it is a sublist of the collected list (first-occurrence order
preserved, later duplicates dropped), and each retained entry is the
first-encountered collected movie bearing its identifier. -/
theorem c3_dedup_by_imdb (oracle : Nat → PageResult) (en : Nat → Enrich)
    (apiKey language : String) (cache : CacheMap) :
    (fetch_and_cache_movies oracle en apiKey language cache).1
        = dedupMovies (collectMovies oracle en)
    ∧ List.Pairwise (fun a b => a.imdbId ≠ b.imdbId)
        (fetch_and_cache_movies oracle en apiKey language cache).1
    ∧ ((fetch_and_cache_movies oracle en apiKey language cache).1).Sublist
        (collectMovies oracle en)
    ∧ ∀ m ∈ (fetch_and_cache_movies oracle en apiKey language cache).1,
        (collectMovies oracle en).find? (fun x => x.imdbId == m.imdbId) = some m :=
  ⟨rfl, dedupLoop_pairwise _ _, dedupLoop_sublist _ _, fun _ hm => dedupLoop_first hm⟩

/-- C3 at a concrete run: one discovery page with one record, enriched to
IMDb id `tt0007`; the cached entry is that record and it is the first
collected movie with its identifier. -/
theorem c3_dedup_by_imdb_witness :
    (fetch_and_cache_movies demoOracle demoEnrich "k" "ml" (fun _ => none)).1
        = dedupMovies (collectMovies demoOracle demoEnrich)
    ∧ (collectMovies demoOracle demoEnrich).find?
        (fun x => x.imdbId == ({ demoRawMovie with imdbId := some "tt0007" } : Movie).imdbId)
        = some { demoRawMovie with imdbId := some "tt0007" } := by
  have h := c3_dedup_by_imdb demoOracle demoEnrich "k" "ml" (fun _ => none)
  exact ⟨h.1, h.2.2.2 _ (by decide)⟩

/-! ## Claim C4 -/

/-- **C4**: Every item in any cached list is eligible: its enrichment
reported a providers response with `"results"`/`"IN"`/`"flatrate"`
present (regional subscription availability), and its cross-reference
identifier is present, non-empty and prefixed `"tt"`.  In particular an
item missing a valid identifier never appears in the cached list. -/
theorem c4_cached_items_eligible (oracle : Nat → PageResult) (en : Nat → Enrich)
    (apiKey language : String) (cache : CacheMap) (m : Movie)
    (hm : m ∈ (fetch_and_cache_movies oracle en apiKey language cache).1) :
    eligible en m := by
  have hcol : m ∈ collectMovies oracle en :=
    (dedupLoop_sublist (collectMovies oracle en) []).subset hm
  obtain ⟨m₀, hm₀⟩ := mem_collectMovies hcol
  exact (processMovie_spec hm₀).1

/-- C4 at the concrete run of `demoOracle`/`demoEnrich`. -/
theorem c4_cached_items_eligible_witness :
    eligible demoEnrich { demoRawMovie with imdbId := some "tt0007" } :=
  c4_cached_items_eligible demoOracle demoEnrich "k" "ml" (fun _ => none) _ (by decide)

/-! ## Claim C5 -/

/-- **C5**: Every run of `fetch_and_cache_movies` completes with a cache
write: afterwards the cache maps the run's key to the produced list (the
function is total, so the run always terminates, and there is no
in-flight marker left behind).  In a total failure where the very first
discovery page raises, the written list is empty. -/
theorem c5_fetch_always_writes (oracle : Nat → PageResult) (en : Nat → Enrich)
    (apiKey language : String) (cache : CacheMap) :
    (fetch_and_cache_movies oracle en apiKey language cache).2 (cacheKey apiKey language)
        = some (fetch_and_cache_movies oracle en apiKey language cache).1
    ∧ (oracle 1 = .exn →
        (fetch_and_cache_movies oracle en apiKey language cache).2 (cacheKey apiKey language)
          = some []) := by
  constructor
  · simp [fetch_and_cache_movies]
  · intro h1
    have hcol : collectMovies oracle en = [] := by
      unfold collectMovies
      rw [show (999 : Nat) = 998 + 1 from rfl, fetchLoop_exn h1]
    simp [fetch_and_cache_movies, hcol, dedupMovies, dedupLoop]

/-- C5 at a concrete total failure: every page raises, and the run still
writes the (empty) list under its key. -/
theorem c5_fetch_always_writes_witness :
    (fetch_and_cache_movies (fun _ => .exn) demoEnrich "k" "ml" (fun _ => none)).2 "k_ml"
      = some [] := by
  have h := c5_fetch_always_writes (fun _ => .exn) demoEnrich "k" "ml" (fun _ => none)
  simpa [cacheKey] using h.2 rfl

/-! ## Claim C7 -/

/-- **C7**: A failure in a single item's enrichment lookups (providers
or external-ids request raising) makes `processMovie` skip exactly that
item: the page's processing equals the processing of the remaining items
around it, so an item-level failure aborts neither the page nor the
fetch. -/
theorem c7_item_failure_isolated (en : Nat → Enrich) (pre post : List Movie)
    (m : Movie) (i : Nat) (hid : m.id = some i)
    (hfail : (en i).prov = none ∨ (en i).ext = none) :
    processMovie en m = none
    ∧ processPage en (pre ++ m :: post) = processPage en pre ++ processPage en post := by
  have hnone : processMovie en m = none := by
    cases htit : m.title with
    | none => simp [processMovie, hid, htit]
    | some t =>
      cases hfail with
      | inl hp => simp [processMovie, hid, htit, hp]
      | inr he =>
        cases hp : (en i).prov with
        | none => simp [processMovie, hid, htit, hp]
        | some p => simp [processMovie, hid, htit, hp, he]
  exact ⟨hnone, by simp [processPage, List.filterMap_append, List.filterMap_cons, hnone]⟩

/-- C7 at a concrete item whose providers lookup raises. -/
theorem c7_item_failure_isolated_witness :
    processMovie failEnrich demoRawMovie = none
    ∧ processPage failEnrich ([] ++ demoRawMovie :: [])
        = processPage failEnrich [] ++ processPage failEnrich [] :=
  c7_item_failure_isolated failEnrich [] [] demoRawMovie 7 rfl (Or.inl rfl)

/-! ## Claim C8 -/

theorem fetchLoop_count_le (oracle : Nat → PageResult) (en : Nat → Enrich) :
    ∀ (fuel page : Nat), (fetchLoop oracle en page fuel).2 ≤ fuel := by
  intro fuel
  induction fuel with
  | zero => intro page; simp [fetchLoop]
  | succ f ih =>
    intro page
    cases hor : oracle page with
    | exn => rw [fetchLoop_exn hor]; omega
    | resp st res =>
      rw [fetchLoop_resp hor]
      split_ifs
      · simp
      · simp
      · have := ih (page + 1)
        simp only []
        omega

theorem fetchLoop_count_all_good (oracle : Nat → PageResult) (en : Nat → Enrich) :
    ∀ (fuel page : Nat),
      (∀ p, page ≤ p → p < page + fuel → ∃ rs, oracle p = .resp 200 rs ∧ rs ≠ []) →
      (fetchLoop oracle en page fuel).2 = fuel := by
  intro fuel
  induction fuel with
  | zero => intro page _; simp [fetchLoop]
  | succ f ih =>
    intro page h
    obtain ⟨rs, hrs, hne⟩ := h page (le_refl _) (by omega)
    rw [fetchLoop_resp hrs, if_neg (by simp), if_neg (by simp [List.isEmpty_iff, hne])]
    have := ih (page + 1) (fun p h1 h2 => h p (by omega) (by omega))
    simp only []
    omega

theorem fetchLoop_count_stop (oracle : Nat → PageResult) (en : Nat → Enrich) :
    ∀ (k fuel page : Nat), k < fuel →
      (∀ p, page ≤ p → p < page + k → ∃ rs, oracle p = .resp 200 rs ∧ rs ≠ []) →
      pageFails (oracle (page + k)) →
      (fetchLoop oracle en page fuel).2 = k + 1 := by
  intro k
  induction k with
  | zero =>
    intro fuel page hf hok hfail
    obtain ⟨f, rfl⟩ : ∃ f, fuel = f + 1 := ⟨fuel - 1, by omega⟩
    rw [Nat.add_zero] at hfail
    rcases hfail with h | ⟨st, res, h, hst⟩ | ⟨st, h⟩
    · rw [fetchLoop_exn h]
    · rw [fetchLoop_resp h, if_pos (by simpa using hst)]
    · by_cases hst : st = 200
      · subst hst
        rw [fetchLoop_resp h, if_neg (by simp), if_pos (by simp)]
      · rw [fetchLoop_resp h, if_pos (by simpa using hst)]
  | succ k ih =>
    intro fuel page hf hok hfail
    obtain ⟨f, rfl⟩ : ∃ f, fuel = f + 1 := ⟨fuel - 1, by omega⟩
    obtain ⟨rs, hrs, hne⟩ := hok page (le_refl _) (by omega)
    rw [fetchLoop_resp hrs, if_neg (by simp), if_neg (by simp [List.isEmpty_iff, hne])]
    have hrec := ih f (page + 1) (by omega)
      (fun p h1 h2 => hok p (by omega) (by omega))
      (by rw [show page + 1 + k = page + (k + 1) from by omega]; exact hfail)
    simp only []
    omega

/-- **C8**: Discovery pagination starts at page 1 and is bounded: at most
999 pages are ever requested (termination is intrinsic — `fetchLoop` is a
total function); if every page up to the ceiling answers 200 with
non-empty results, exactly 999 pages are requested (ceiling reached); and
if pages 1..k succeed but page k+1 raises, returns non-200 or returns
zero records, pagination stops with exactly k+1 pages requested. -/
theorem c8_pagination_bounded (oracle : Nat → PageResult) (en : Nat → Enrich) :
    pagesRequested oracle en ≤ 999
    ∧ ((∀ p, 1 ≤ p → p ≤ 999 → ∃ rs, oracle p = .resp 200 rs ∧ rs ≠ []) →
        pagesRequested oracle en = 999)
    ∧ (∀ k, k ≤ 998 →
        (∀ p, 1 ≤ p → p ≤ k → ∃ rs, oracle p = .resp 200 rs ∧ rs ≠ []) →
        pageFails (oracle (k + 1)) →
        pagesRequested oracle en = k + 1) := by
  refine ⟨fetchLoop_count_le oracle en 999 1, fun h => ?_, fun k hk hok hfail => ?_⟩
  · exact fetchLoop_count_all_good oracle en 999 1 (fun p h1 h2 => h p h1 (by omega))
  · refine fetchLoop_count_stop oracle en k 999 1 (by omega)
      (fun p h1 h2 => hok p h1 (by omega)) ?_
    rw [show 1 + k = k + 1 from by omega]
    exact hfail

/-- C8 at a concrete run: page 1 returns one record, page 2 raises, so
exactly 2 pages are requested. -/
theorem c8_pagination_bounded_witness : pagesRequested demoOracle demoEnrich = 2 :=
  (c8_pagination_bounded demoOracle demoEnrich).2.2 1 (by omega)
    (fun p h1 h2 => by
      have hp : p = 1 := Nat.le_antisymm h2 h1
      subst hp
      exact ⟨[demoRawMovie], rfl, by decide⟩)
    (Or.inl rfl)

/-! ## Claim C6 -/

theorem fetchLoop_items_stop (oracle : Nat → PageResult) (en : Nat → Enrich)
    (rs : Nat → List Movie) :
    ∀ (k fuel page : Nat), k < fuel →
      (∀ p, page ≤ p → p < page + k → oracle p = .resp 200 (rs p) ∧ rs p ≠ []) →
      pageFails (oracle (page + k)) →
      (fetchLoop oracle en page fuel).1
        = ((List.range' page k).map fun p => processPage en (rs p)).flatten := by
  intro k
  induction k with
  | zero =>
    intro fuel page hf hok hfail
    obtain ⟨f, rfl⟩ : ∃ f, fuel = f + 1 := ⟨fuel - 1, by omega⟩
    rw [Nat.add_zero] at hfail
    simp only [List.range'_zero, List.map_nil, List.flatten_nil]
    rcases hfail with h | ⟨st, res, h, hst⟩ | ⟨st, h⟩
    · rw [fetchLoop_exn h]
    · rw [fetchLoop_resp h, if_pos (by simpa using hst)]
    · by_cases hst : st = 200
      · subst hst
        rw [fetchLoop_resp h, if_neg (by simp), if_pos (by simp)]
      · rw [fetchLoop_resp h, if_pos (by simpa using hst)]
  | succ k ih =>
    intro fuel page hf hok hfail
    obtain ⟨f, rfl⟩ : ∃ f, fuel = f + 1 := ⟨fuel - 1, by omega⟩
    obtain ⟨hrs, hne⟩ := hok page (le_refl _) (by omega)
    rw [fetchLoop_resp hrs, if_neg (by simp), if_neg (by simp [List.isEmpty_iff, hne])]
    have hrec := ih f (page + 1) (by omega)
      (fun p h1 h2 => hok p (by omega) (by omega))
      (by rw [show page + 1 + k = page + (k + 1) from by omega]; exact hfail)
    simp only [List.range'_succ, List.map_cons, List.flatten_cons]
    rw [← hrec]

/-- **C6**: If pages 1..k succeed with non-empty results and page k+1
suffers a transport failure or a non-success response, pagination stops
there but the items collected from pages 1..k are kept: the collected
list is exactly the concatenation of the processed successful pages, and
the run still deduplicates it and writes it to the cache (no exception
escapes — the embedded run is a total function whose failure branches
are data). -/
theorem c6_page_failure_keeps_collected (oracle : Nat → PageResult) (en : Nat → Enrich)
    (apiKey language : String) (cache : CacheMap) (rs : Nat → List Movie) (k : Nat)
    (hk : k ≤ 998)
    (hok : ∀ p, 1 ≤ p → p ≤ k → oracle p = .resp 200 (rs p) ∧ rs p ≠ [])
    (hfail : oracle (k + 1) = .exn ∨ ∃ st res, oracle (k + 1) = .resp st res ∧ st ≠ 200) :
    collectMovies oracle en
        = ((List.range' 1 k).map fun p => processPage en (rs p)).flatten
    ∧ (fetch_and_cache_movies oracle en apiKey language cache).1
        = dedupMovies (((List.range' 1 k).map fun p => processPage en (rs p)).flatten)
    ∧ (fetch_and_cache_movies oracle en apiKey language cache).2 (cacheKey apiKey language)
        = some (dedupMovies (((List.range' 1 k).map fun p => processPage en (rs p)).flatten)) := by
  have hcol : collectMovies oracle en
      = ((List.range' 1 k).map fun p => processPage en (rs p)).flatten := by
    refine fetchLoop_items_stop oracle en rs k 999 1 (by omega)
      (fun p h1 h2 => hok p h1 (by omega)) ?_
    rw [show 1 + k = k + 1 from by omega]
    rcases hfail with h | ⟨st, res, h, hst⟩
    · exact Or.inl h
    · exact Or.inr (Or.inl ⟨st, res, h, hst⟩)
  refine ⟨hcol, ?_, ?_⟩
  · show dedupMovies (collectMovies oracle en) = _
    rw [hcol]
  · simp only [fetch_and_cache_movies]
    rw [hcol]
    simp

/-- C6 at a concrete run: page 1 succeeds with one record, page 2 raises;
the cache receives exactly page 1's processed items. -/
theorem c6_page_failure_keeps_collected_witness :
    collectMovies demoOracle demoEnrich
        = ((List.range' 1 1).map fun _ => processPage demoEnrich [demoRawMovie]).flatten
    ∧ (fetch_and_cache_movies demoOracle demoEnrich "k" "ml" (fun _ => none)).2 "k_ml"
        = some (dedupMovies
            (((List.range' 1 1).map fun _ => processPage demoEnrich [demoRawMovie]).flatten)) := by
  have h := c6_page_failure_keeps_collected demoOracle demoEnrich "k" "ml" (fun _ => none)
    (fun _ => [demoRawMovie]) 1 (by omega)
    (fun p h1 h2 => by
      have hp : p = 1 := Nat.le_antisymm h2 h1
      subst hp
      exact ⟨rfl, by decide⟩)
    (Or.inl rfl)
  refine ⟨h.1, ?_⟩
  have := h.2.2
  simpa [cacheKey] using this

/-! ## Claim C2 -/

theorem pyIndex_ofNat (len a : Nat) : pyIndex len (Int.ofNat a) = min a len := by
  simp [pyIndex]

theorem pySlice_nat {α : Type} (l : List α) (a : Nat) :
    pySlice l (Int.ofNat a) (Int.ofNat a + 100) = (l.drop a).take 100 := by
  have h2 : pyIndex l.length (Int.ofNat a + 100) = min (a + 100) l.length := by
    rw [show Int.ofNat a + 100 = Int.ofNat (a + 100) from rfl]
    exact pyIndex_ofNat _ _
  rw [pySlice, pyIndex_ofNat, h2]
  by_cases h : a ≤ l.length
  · rw [min_eq_left h, List.drop_take]
    have hmin : min (a + 100) l.length - a = min 100 (l.length - a) := by omega
    rw [hmin]
    have hlen : (l.drop a).length = l.length - a := List.length_drop a l
    calc (l.drop a).take (min 100 (l.length - a))
        = ((l.drop a).take (l.length - a)).take 100 := by
          rw [List.take_take, Nat.min_comm]
      _ = (l.drop a).take 100 := by
          rw [← hlen, List.take_length]
  · have h' : l.length ≤ a := by omega
    rw [min_eq_right h', min_eq_right (by omega : l.length ≤ a + 100), List.take_length,
      List.drop_eq_nil_of_le h', List.drop_eq_nil_of_le (le_refl _)]
    simp

theorem filterMap_isSome_length {α β : Type} {f : α → Option β} :
    ∀ {l : List α}, (∀ a ∈ l, (f a).isSome) → (l.filterMap f).length = l.length := by
  intro l
  induction l with
  | nil => intro _; simp
  | cons a l ih =>
    intro h
    obtain ⟨b, hb⟩ := Option.isSome_iff_exists.mp (h a (List.mem_cons_self a l))
    rw [List.filterMap_cons_some hb, List.length_cons, List.length_cons,
      ih (fun x hx => h x (List.mem_cons_of_mem a hx))]

theorem filterMap_take {α β : Type} {f : α → Option β} :
    ∀ (l : List α) (k : Nat), (∀ a ∈ l, (f a).isSome) →
      (l.take k).filterMap f = (l.filterMap f).take k := by
  intro l
  induction l with
  | nil => intro k _; simp
  | cons a l ih =>
    intro k h
    obtain ⟨b, hb⟩ := Option.isSome_iff_exists.mp (h a (List.mem_cons_self a l))
    cases k with
    | zero => simp
    | succ k =>
      rw [List.take_succ_cons, List.filterMap_cons_some hb, List.filterMap_cons_some hb,
        List.take_succ_cons, ih k (fun x hx => h x (List.mem_cons_of_mem a hx))]

theorem filterMap_drop {α β : Type} {f : α → Option β} :
    ∀ (l : List α) (k : Nat), (∀ a ∈ l, (f a).isSome) →
      (l.drop k).filterMap f = (l.filterMap f).drop k := by
  intro l
  induction l with
  | nil => intro k _; simp
  | cons a l ih =>
    intro k h
    obtain ⟨b, hb⟩ := Option.isSome_iff_exists.mp (h a (List.mem_cons_self a l))
    cases k with
    | zero => simp
    | succ k =>
      rw [List.drop_succ_cons, List.filterMap_cons_some hb, List.drop_succ_cons,
        ih k (fun x hx => h x (List.mem_cons_of_mem a hx))]

theorem validCachedMovie_isSome {m : Movie} (h : validCachedMovie m) :
    (to_stremio_meta m).isSome := by
  obtain ⟨h1, h2⟩ := h
  simp [to_stremio_meta, h1, h2]

/-- **C2**: On a cache hit with a populated entry of length `L` (all
entries carrying the truthy `imdb_id` and `title` that the fetch
pipeline guarantees) and a non-negative `skip`, the catalog read returns
the sub-range `[skip, skip+100)` of the stored list in order: exactly
`min 100 (L - skip)` items, and an empty result (not an error) when
`skip ≥ L`. -/
theorem c2_catalog_pagination (cfgStr : List Char) (language : String)
    (kvs : List (List Char × Json)) (apiKeyChars : List Char) (movies : List Movie)
    (skipStr : String) (skipN : Nat) (st : SysState)
    (hdec : decode_user_config cfgStr = some (.obj kvs))
    (hne : kvs ≠ [])
    (hkey : lookupKey ['a', 'p', 'i', '_', 'k', 'e', 'y'] kvs = some (.str apiKeyChars))
    (hskip : pyInt skipStr = some (Int.ofNat skipN))
    (hcache : st.cache (cacheKey (String.mk apiKeyChars) language) = some movies)
    (hvalid : ∀ m ∈ movies, validCachedMovie m) :
    catalog cfgStr language (some skipStr) st
        = (.metas (((movies.filterMap to_stremio_meta).drop skipN).take 100), st)
    ∧ (((movies.filterMap to_stremio_meta).drop skipN).take 100).length
        = min 100 (movies.length - skipN)
    ∧ (movies.length ≤ skipN →
        ((movies.filterMap to_stremio_meta).drop skipN).take 100 = []) := by
  have hsome : ∀ m ∈ movies, (to_stremio_meta m).isSome :=
    fun m hm => validCachedMovie_isSome (hvalid m hm)
  have hlen : (movies.filterMap to_stremio_meta).length = movies.length :=
    filterMap_isSome_length hsome
  refine ⟨?_, ?_, ?_⟩
  · rw [catalog, hdec]
    simp only [List.isEmpty_iff, hne, if_false, hkey, hskip, pyStr, hcache]
    have hslice : pySlice movies (Int.ofNat skipN) (Int.ofNat skipN + 100)
        = (movies.drop skipN).take 100 := pySlice_nat movies skipN
    rw [hslice]
    have hdropvalid : ∀ m ∈ movies.drop skipN, (to_stremio_meta m).isSome :=
      fun m hm => hsome m (List.drop_subset _ _ hm)
    rw [filterMap_take _ _ hdropvalid, filterMap_drop _ _ hsome]
  · rw [List.length_take, List.length_drop, hlen]
  · intro h
    have : (movies.filterMap to_stremio_meta).drop skipN = [] :=
      List.drop_eq_nil_of_le (by omega)
    rw [this, List.take_nil]

/-- C2 at a concrete hit: a one-movie cache entry read with `skip=150`
yields the empty page, and with the same entry `min 100 (1 - 150) = 0`. -/
theorem c2_catalog_pagination_witness :
    catalog demoConfigString "ml" (some "150") demoState
        = (.metas ((([demoCachedMovie].filterMap to_stremio_meta).drop 150).take 100), demoState)
    ∧ ((([demoCachedMovie].filterMap to_stremio_meta).drop 150).take 100).length
        = min 100 ([demoCachedMovie].length - 150)
    ∧ ([demoCachedMovie].length ≤ 150 →
        (([demoCachedMovie].filterMap to_stremio_meta).drop 150).take 100 = []) := by
  refine c2_catalog_pagination demoConfigString "ml"
    [(['a', 'p', 'i', '_', 'k', 'e', 'y'], .str ['k'])] ['k'] [demoCachedMovie]
    "150" 150 demoState rfl (List.cons_ne_nil _ _) rfl rfl rfl ?_
  intro m hm
  rw [List.mem_singleton] at hm
  subst hm
  exact ⟨rfl, rfl⟩

/-! ## Claim C1 -/

/-- **C1 counterexample**: starting from an empty cache, two catalog
reads for the same (valid) configuration and language in quick
succession — the background fetch started by the first has not yet
written the cache — leave **two** `fetch_and_cache_movies` invocations
in flight for the key `k_ml`, not one: the handler's check-and-spawn
under `cache_lock` stores no in-flight marker, so the second read also
misses and spawns. -/
theorem c1_duplicate_inflight_cex :
    ((catalog demoConfigString "ml" none
        ((catalog demoConfigString "ml" none initialState).2)).2.inflight.count "k_ml" = 2)
    ∧ ¬ ((catalog demoConfigString "ml" none
        ((catalog demoConfigString "ml" none initialState).2)).2.inflight.count "k_ml" = 1) :=
  ⟨rfl, by decide⟩

/-- **C1 amended**: a catalog read that decodes a valid configuration
triggers exactly one new `fetch_and_cache_movies` invocation when the
key is uncached — so reads while a populate is still in flight trigger
duplicates, and only once the key is populated does a read trigger
none. -/
theorem c1_read_spawn_behavior (cfgStr : List Char) (language : String)
    (skipParam : Option String) (st : SysState) (kvs : List (List Char × Json))
    (apiKeyVal : Json) (skip : Int)
    (hdec : decode_user_config cfgStr = some (.obj kvs))
    (hne : kvs ≠ [])
    (hkey : lookupKey ['a', 'p', 'i', '_', 'k', 'e', 'y'] kvs = some apiKeyVal)
    (hskip : (match skipParam with | none => some (0 : Int) | some s => pyInt s)
        = some skip) :
    (st.cache (cacheKey (pyStr apiKeyVal) language) = none →
      catalog cfgStr language skipParam st
        = (.metas [],
            { st with inflight := cacheKey (pyStr apiKeyVal) language :: st.inflight }))
    ∧ (∀ cached, st.cache (cacheKey (pyStr apiKeyVal) language) = some cached →
        (catalog cfgStr language skipParam st).2 = st) := by
  constructor
  · intro hmiss
    rw [catalog.eq_def, hdec]
    simp only [List.isEmpty_iff, hne, if_false, hkey, hskip, hmiss]
  · intro cached hhit
    rw [catalog.eq_def, hdec]
    simp only [List.isEmpty_iff, hne, if_false, hkey, hskip, hhit]

/-- C1 amended at concrete states: a miss on the empty initial state
spawns one fetch for `k_ml`; a hit on a populated state spawns none. -/
theorem c1_read_spawn_behavior_witness :
    catalog demoConfigString "ml" none initialState
      = (.metas [], { cache := initialState.cache, inflight := ["k_ml"] })
    ∧ (catalog demoConfigString "ml" none demoState).2 = demoState := by
  have h1 := (c1_read_spawn_behavior demoConfigString "ml" none initialState
      [(['a', 'p', 'i', '_', 'k', 'e', 'y'], .str ['k'])] (.str ['k']) 0
      rfl (List.cons_ne_nil _ _) rfl rfl).1 rfl
  have h2 := (c1_read_spawn_behavior demoConfigString "ml" none demoState
      [(['a', 'p', 'i', '_', 'k', 'e', 'y'], .str ['k'])] (.str ['k']) 0
      rfl (List.cons_ne_nil _ _) rfl rfl).2 [demoCachedMovie] rfl
  exact ⟨h1.trans rfl, h2⟩

/-! ## Claim C10 -/

/-- **C10**: The catalog read is not total in its `skip` query
parameter: with a valid configuration and `skip="abc"`, the unguarded
`int()` raises `ValueError` (`pyInt` returns `none`) and the handler
propagates the exception — both on an uncached and on a populated
state — instead of returning a result or defaulting to 0. -/
theorem c10_skip_not_total :
    pyInt "abc" = none
    ∧ (catalog demoConfigString "ml" (some "abc") initialState).1 = .pyError "ValueError"
    ∧ (catalog demoConfigString "ml" (some "abc") demoState).1 = .pyError "ValueError" :=
  ⟨rfl, rfl, rfl⟩

/-! ## Claim C9: base64 round trip -/

theorem b64CharIndex_b64Char : ∀ n < 64, b64CharIndex (b64Char n) = some n := by decide

theorem b64Char_ne_pad : ∀ n < 64, b64Char n ≠ '=' := by decide

theorem b64_roundtrip : ∀ (bs : List Nat), (∀ b ∈ bs, b < 256) →
    b64DecodeBytes (b64EncodeBytes bs) = some bs
  | [], _ => rfl
  | [b1], h => by
    have hb1 : b1 < 256 := h b1 (by simp)
    show b64DecodeBytes [b64Char (b1 / 4), b64Char (b1 % 4 * 16), '=', '='] = some [b1]
    rw [b64DecodeBytes, b64CharIndex_b64Char _ (by omega), b64CharIndex_b64Char _ (by omega)]
    simp
    omega
  | [b1, b2], h => by
    have hb1 : b1 < 256 := h b1 (by simp)
    have hb2 : b2 < 256 := h b2 (by simp)
    show b64DecodeBytes
        [b64Char (b1 / 4), b64Char (b1 % 4 * 16 + b2 / 16), b64Char (b2 % 16 * 4), '=']
        = some [b1, b2]
    rw [b64DecodeBytes, b64CharIndex_b64Char _ (by omega), b64CharIndex_b64Char _ (by omega)]
    simp only [Option.some_bind]
    rw [if_neg (b64Char_ne_pad _ (by omega)), b64CharIndex_b64Char _ (by omega)]
    simp
    omega
  | b1 :: b2 :: b3 :: rest, h => by
    have hb1 : b1 < 256 := h b1 (by simp)
    have hb2 : b2 < 256 := h b2 (by simp)
    have hb3 : b3 < 256 := h b3 (by simp)
    have ih := b64_roundtrip rest (fun b hb => h b (by simp [hb]))
    show b64DecodeBytes
        (b64Char (b1 / 4) :: b64Char (b1 % 4 * 16 + b2 / 16) ::
          b64Char (b2 % 16 * 4 + b3 / 64) :: b64Char (b3 % 64) :: b64EncodeBytes rest)
        = some (b1 :: b2 :: b3 :: rest)
    rw [b64DecodeBytes, b64CharIndex_b64Char _ (by omega), b64CharIndex_b64Char _ (by omega)]
    simp only [Option.some_bind]
    rw [if_neg (b64Char_ne_pad _ (by omega)), b64CharIndex_b64Char _ (by omega)]
    simp only [Option.some_bind]
    rw [if_neg (b64Char_ne_pad _ (by omega)), b64CharIndex_b64Char _ (by omega)]
    simp only [Option.some_bind, ih, Option.map_some']
    simp
    omega

/-! ## Claim C9: UTF-8 round trip -/

theorem char_valid_bounds (c : Char) :
    c.toNat < 55296 ∨ (57343 < c.toNat ∧ c.toNat < 1114112) := c.valid

theorem utf8EncodeChar_lt_256 (c : Char) : ∀ b ∈ utf8EncodeChar c, b < 256 := by
  have hv := char_valid_bounds c
  intro b hb
  simp only [utf8EncodeChar] at hb
  split_ifs at hb with h1 h2 h3
  · simp at hb; omega
  · simp at hb; rcases hb with rfl | rfl <;> omega
  · simp at hb; rcases hb with rfl | rfl | rfl <;> omega
  · simp at hb; rcases hb with rfl | rfl | rfl | rfl <;> omega

theorem utf8Encode_lt_256 (s : List Char) : ∀ b ∈ utf8Encode s, b < 256 := by
  intro b hb
  simp only [utf8Encode, List.mem_flatten, List.mem_map] at hb
  obtain ⟨l, ⟨c, -, rfl⟩, hbl⟩ := hb
  exact utf8EncodeChar_lt_256 c b hbl

theorem utf8DecodeStep_enc (c : Char) (rest : List Nat) :
    ∀ b1 tl, utf8EncodeChar c = b1 :: tl →
      utf8DecodeStep b1 (tl ++ rest) = some (c.toNat, rest) := by
  have hv := char_valid_bounds c
  intro b1 tl henc
  by_cases h1 : c.toNat < 128
  · rw [utf8EncodeChar, if_pos h1] at henc
    injection henc with hb ht
    subst hb
    subst ht
    rw [utf8DecodeStep.eq_def, if_pos h1]
    rfl
  · by_cases h2 : c.toNat < 2048
    · rw [utf8EncodeChar, if_neg h1, if_pos h2] at henc
      injection henc with hb ht
      subst hb
      subst ht
      simp only [utf8DecodeStep, List.cons_append, List.nil_append]
      rw [if_neg (by omega : ¬ (192 + c.toNat / 64 < 128)),
        if_neg (by omega : ¬ (192 + c.toNat / 64 < 192)),
        if_pos (by omega : 192 + c.toNat / 64 < 224),
        if_pos (show isCont (128 + c.toNat % 64) = true by simp only [isCont]; simp; omega),
        if_pos (by omega : 128 ≤ (192 + c.toNat / 64 - 192) * 64 + (128 + c.toNat % 64 - 128)),
        show (192 + c.toNat / 64 - 192) * 64 + (128 + c.toNat % 64 - 128) = c.toNat
          from by omega]
    · by_cases h3 : c.toNat < 65536
      · rw [utf8EncodeChar, if_neg h1, if_neg h2, if_pos h3] at henc
        injection henc with hb ht
        subst hb
        subst ht
        simp only [utf8DecodeStep, List.cons_append, List.nil_append]
        rw [if_neg (by omega : ¬ (224 + c.toNat / 4096 < 128)),
          if_neg (by omega : ¬ (224 + c.toNat / 4096 < 192)),
          if_neg (by omega : ¬ (224 + c.toNat / 4096 < 224)),
          if_pos (by omega : 224 + c.toNat / 4096 < 240),
          if_pos (show (isCont (128 + c.toNat / 64 % 64) && isCont (128 + c.toNat % 64))
              = true by
            simp only [isCont, Bool.and_eq_true]
            constructor <;> (simp; omega)),
          if_pos (show 2048 ≤ (224 + c.toNat / 4096 - 224) * 4096
                + (128 + c.toNat / 64 % 64 - 128) * 64 + (128 + c.toNat % 64 - 128)
              ∧ ¬ (55296 ≤ (224 + c.toNat / 4096 - 224) * 4096
                    + (128 + c.toNat / 64 % 64 - 128) * 64 + (128 + c.toNat % 64 - 128)
                  ∧ (224 + c.toNat / 4096 - 224) * 4096
                    + (128 + c.toNat / 64 % 64 - 128) * 64 + (128 + c.toNat % 64 - 128)
                    ≤ 57343) from by constructor <;> omega),
          show (224 + c.toNat / 4096 - 224) * 4096 + (128 + c.toNat / 64 % 64 - 128) * 64
              + (128 + c.toNat % 64 - 128) = c.toNat from by omega]
      · rw [utf8EncodeChar, if_neg h1, if_neg h2, if_neg h3] at henc
        injection henc with hb ht
        subst hb
        subst ht
        simp only [utf8DecodeStep, List.cons_append, List.nil_append]
        rw [if_neg (by omega : ¬ (240 + c.toNat / 262144 < 128)),
          if_neg (by omega : ¬ (240 + c.toNat / 262144 < 192)),
          if_neg (by omega : ¬ (240 + c.toNat / 262144 < 224)),
          if_neg (by omega : ¬ (240 + c.toNat / 262144 < 240)),
          if_pos (by omega : 240 + c.toNat / 262144 < 248),
          if_pos (show (isCont (128 + c.toNat / 4096 % 64) && isCont (128 + c.toNat / 64 % 64)
              && isCont (128 + c.toNat % 64)) = true by
            simp only [isCont, Bool.and_eq_true]
            refine ⟨⟨?_, ?_⟩, ?_⟩ <;> (simp; omega)),
          if_pos (show 65536 ≤ (240 + c.toNat / 262144 - 240) * 262144
                + (128 + c.toNat / 4096 % 64 - 128) * 4096
                + (128 + c.toNat / 64 % 64 - 128) * 64 + (128 + c.toNat % 64 - 128)
              ∧ (240 + c.toNat / 262144 - 240) * 262144
                + (128 + c.toNat / 4096 % 64 - 128) * 4096
                + (128 + c.toNat / 64 % 64 - 128) * 64 + (128 + c.toNat % 64 - 128)
                < 1114112 from by constructor <;> omega),
          show (240 + c.toNat / 262144 - 240) * 262144
              + (128 + c.toNat / 4096 % 64 - 128) * 4096
              + (128 + c.toNat / 64 % 64 - 128) * 64 + (128 + c.toNat % 64 - 128)
              = c.toNat from by omega]

theorem utf8EncodeChar_ne_nil (c : Char) : utf8EncodeChar c ≠ [] := by
  rw [utf8EncodeChar]
  split_ifs <;> simp

theorem utf8DecodeLoop_encode :
    ∀ (s : List Char) (fuel : Nat), (utf8Encode s).length ≤ fuel →
      utf8DecodeLoop fuel (utf8Encode s) = some s := by
  intro s
  induction s with
  | nil =>
    intro fuel _
    show utf8DecodeLoop fuel [] = some []
    cases fuel <;> rfl
  | cons c s ih =>
    intro fuel hf
    cases henc : utf8EncodeChar c with
    | nil => exact absurd henc (utf8EncodeChar_ne_nil c)
    | cons b1 tl =>
      have hsplit : utf8Encode (c :: s) = b1 :: (tl ++ utf8Encode s) := by
        show utf8EncodeChar c ++ utf8Encode s = b1 :: (tl ++ utf8Encode s)
        rw [henc]
        rfl
      rw [hsplit]
      rw [hsplit] at hf
      obtain ⟨f, rfl⟩ : ∃ f, fuel = f + 1 := ⟨fuel - 1, by simp at hf; omega⟩
      have hlen : (utf8Encode s).length ≤ f := by
        simp only [List.length_cons, List.length_append] at hf
        omega
      rw [utf8DecodeLoop]
      simp only [utf8DecodeStep_enc c (utf8Encode s) b1 tl henc, ih f hlen,
        Char.ofNat_toNat]

theorem utf8_roundtrip (s : List Char) : utf8Decode (utf8Encode s) = some s :=
  utf8DecodeLoop_encode s (utf8Encode s).length (le_refl _)

/-! ## Claim C9: JSON string bodies and numbers -/

theorem skipSpaces_cons_false {c : Char} {t : List Char} (h : isJsonSpace c = false) :
    skipSpaces (c :: t) = c :: t := by
  simp [skipSpaces, List.dropWhile_cons, h]

theorem parseStringBody_escape : ∀ (s rest : List Char),
    parseStringBody (escapeStr s ++ '"' :: rest) = some (s, rest)
  | [], rest => by
    show parseStringBody ('"' :: rest) = some ([], rest)
    rw [parseStringBody.eq_def]
    simp only []
    rw [if_pos trivial]
  | c :: s, rest => by
    have ih := parseStringBody_escape s rest
    by_cases hc : c = '"' ∨ c = '\\'
    · have hesc : escapeStr (c :: s) = '\\' :: c :: escapeStr s := by
        simp [escapeStr, escapeChar, if_pos hc]
      rw [hesc]
      show (parseStringBody (escapeStr s ++ '"' :: rest)).map
          (fun p => (unescapeChar c :: p.1, p.2)) = some (c :: s, rest)
      rw [ih]
      rcases hc with rfl | rfl <;> rfl
    · have hesc : escapeStr (c :: s) = c :: escapeStr s := by
        simp [escapeStr, escapeChar, if_neg hc]
      rw [hesc]
      push_neg at hc
      show parseStringBody (c :: (escapeStr s ++ '"' :: rest)) = some (c :: s, rest)
      rw [parseStringBody.eq_def]
      simp only []
      rw [if_neg hc.1, if_neg hc.2, ih]
      rfl

theorem digitChar_isDigit : ∀ d, d < 10 → isDigitCh (Nat.digitChar d) = true := by decide

theorem digitChar_toNat : ∀ d, d < 10 → (Nat.digitChar d).toNat - 48 = d := by decide

theorem natChars_digits (m : Nat) : ∀ c ∈ natChars m, isDigitCh c = true := by
  intro c hc
  rw [natChars] at hc
  split_ifs at hc with h
  · simp at hc
    subst hc
    decide
  · simp only [List.mem_reverse, List.mem_map] at hc
    obtain ⟨d, hd, rfl⟩ := hc
    exact digitChar_isDigit d (Nat.digits_lt_base (by norm_num) hd)

theorem natChars_ne_nil (m : Nat) : natChars m ≠ [] := by
  rw [natChars]
  split_ifs with h
  · simp
  · simp only [ne_eq, List.reverse_eq_nil_iff, List.map_eq_nil_iff]
    exact Nat.digits_ne_nil_iff_ne_zero.mpr h

theorem foldl_digit_chars : ∀ (L : List Nat), (∀ d ∈ L, d < 10) → ∀ (acc : Nat),
    ((L.map Nat.digitChar).reverse).foldl (fun a c => a * 10 + (c.toNat - 48)) acc
      = acc * 10 ^ L.length + Nat.ofDigits 10 L := by
  intro L
  induction L with
  | nil => intro _ acc; simp [Nat.ofDigits]
  | cons d L ih =>
    intro h acc
    simp only [List.map_cons, List.reverse_cons, List.foldl_append, List.foldl_cons,
      List.foldl_nil]
    rw [ih (fun x hx => h x (List.mem_cons_of_mem _ hx)) acc,
      digitChar_toNat d (h d (List.mem_cons_self _ _)), Nat.ofDigits_cons,
      List.length_cons]
    ring

theorem takeWhile_all_append {p : Char → Bool} : ∀ (l1 l2 : List Char),
    (∀ c ∈ l1, p c = true) → (∀ c, l2.head? = some c → p c = false) →
    (l1 ++ l2).takeWhile p = l1 ∧ (l1 ++ l2).dropWhile p = l2 := by
  intro l1
  induction l1 with
  | nil =>
    intro l2 _ hf
    cases l2 with
    | nil => simp
    | cons c t =>
      have := hf c rfl
      simp [List.takeWhile_cons, List.dropWhile_cons, this]
  | cons a l1 ih =>
    intro l2 h hf
    have ha := h a (List.mem_cons_self _ _)
    obtain ⟨ht, hd⟩ := ih l2 (fun c hc => h c (List.mem_cons_of_mem _ hc)) hf
    simp [List.takeWhile_cons, List.dropWhile_cons, ha, ht, hd]

theorem parseNatChars_natChars (m : Nat) (rest : List Char) (hf : numFence rest) :
    parseNatChars (natChars m ++ rest) = some (m, rest) := by
  obtain ⟨htake, hdrop⟩ := takeWhile_all_append (natChars m) rest (natChars_digits m)
    (fun c hc => hf c hc)
  rw [parseNatChars]
  simp only [htake, hdrop]
  rw [if_neg (by simp [natChars_ne_nil m])]
  have hfold : (natChars m).foldl (fun a c => a * 10 + (c.toNat - 48)) 0 = m := by
    rw [natChars]
    split_ifs with h
    · subst h; rfl
    · rw [foldl_digit_chars (Nat.digits 10 m)
        (fun d hd => Nat.digits_lt_base (by norm_num) hd) 0]
      simp [Nat.ofDigits_digits]
  rw [hfold]

theorem natChars_head_digit (m : Nat) : ∃ c cs, natChars m = c :: cs ∧ isDigitCh c = true := by
  cases h : natChars m with
  | nil => exact absurd h (natChars_ne_nil m)
  | cons c cs => exact ⟨c, cs, rfl, natChars_digits m c (h ▸ List.mem_cons_self _ _)⟩

theorem char_ne_of_toNat {c d : Char} (h : c.toNat ≠ d.toNat) : c ≠ d :=
  fun he => h (he ▸ rfl)

theorem isDigitCh_bounds {c : Char} (h : isDigitCh c = true) :
    48 ≤ c.toNat ∧ c.toNat ≤ 57 := by simpa [isDigitCh] using h

theorem parseNumber_intChars (n : Int) (rest : List Char) (hf : numFence rest) :
    parseNumber (intChars n ++ rest) = some (n, rest) := by
  by_cases hn : n < 0
  · rw [intChars, if_pos hn]
    show parseNumber ('-' :: (natChars n.natAbs ++ rest)) = some (n, rest)
    rw [parseNumber.eq_def]
    simp only []
    rw [if_pos trivial, parseNatChars_natChars _ _ hf]
    simp only [Option.map_some']
    have : -(n.natAbs : Int) = n := by omega
    rw [this]
  · rw [intChars, if_neg hn]
    obtain ⟨c, cs, hh, hd⟩ := natChars_head_digit n.toNat
    have hbounds := isDigitCh_bounds hd
    rw [hh]
    show parseNumber (c :: (cs ++ rest)) = some (n, rest)
    rw [parseNumber.eq_def]
    simp only []
    rw [if_neg (char_ne_of_toNat (show c.toNat ≠ '-'.toNat by simp; omega)),
      show c :: (cs ++ rest) = natChars n.toNat ++ rest from by rw [hh]; rfl,
      parseNatChars_natChars _ _ hf]
    simp only [Option.map_some']
    have : (n.toNat : Int) = n := by omega
    rw [this]

/-! ## Claim C9: serializer shape lemmas -/

theorem isJsonSpace_false_of_digit {c : Char} (h : isDigitCh c = true) :
    isJsonSpace c = false := by
  have hb := isDigitCh_bounds h
  simp only [isJsonSpace, Bool.or_eq_false_iff, beq_eq_false_iff_ne, ne_eq]
  refine ⟨⟨⟨?_, ?_⟩, ?_⟩, ?_⟩ <;> (intro he; subst he; simp at hb)

theorem serialize_head (v : Json) :
    ∃ c cs, serialize v = c :: cs ∧ isJsonSpace c = false ∧ c ≠ ']' := by
  cases v with
  | null => exact ⟨'n', _, rfl, by decide, by decide⟩
  | bool b =>
    cases b with
    | false => exact ⟨'f', _, rfl, by decide, by decide⟩
    | true => exact ⟨'t', _, rfl, by decide, by decide⟩
  | num n =>
    by_cases hn : n < 0
    · refine ⟨'-', natChars n.natAbs, ?_, by decide, by decide⟩
      show intChars n = '-' :: natChars n.natAbs
      rw [intChars, if_pos hn]
    · obtain ⟨c, cs, hh, hd⟩ := natChars_head_digit n.toNat
      have hb := isDigitCh_bounds hd
      refine ⟨c, cs, ?_, isJsonSpace_false_of_digit hd, char_ne_of_toNat ?_⟩
      · show intChars n = c :: cs
        rw [intChars, if_neg hn, hh]
      · show c.toNat ≠ ']'.toNat
        simp
        omega
  | str s => exact ⟨'"', _, rfl, by decide, by decide⟩
  | arr vs =>
    cases vs with
    | nil => exact ⟨'[', _, rfl, by decide, by decide⟩
    | cons v vs => exact ⟨'[', _, rfl, by decide, by decide⟩
  | obj kvs =>
    cases kvs with
    | nil => exact ⟨'{', _, rfl, by decide, by decide⟩
    | cons kv kvs => exact ⟨'{', _, rfl, by decide, by decide⟩

theorem jsonSize_pos (v : Json) : 1 ≤ jsonSize v := by
  cases v <;> simp [jsonSize]

theorem intChars_ne_nil (n : Int) : intChars n ≠ [] := by
  rw [intChars]
  split_ifs
  · simp
  · exact natChars_ne_nil _

mutual

theorem jsonSize_le_len (v : Json) : jsonSize v ≤ (serialize v).length := by
  cases v with
  | null => show jsonSize .null ≤ 4; simp [jsonSize]
  | bool b =>
    cases b with
    | false => show jsonSize (.bool false) ≤ 5; simp [jsonSize]
    | true => show jsonSize (.bool true) ≤ 4; simp [jsonSize]
  | num n =>
    show jsonSize (.num n) ≤ (intChars n).length
    have := List.length_pos.mpr (intChars_ne_nil n)
    simp only [jsonSize]
    omega
  | str s =>
    show jsonSize (.str s) ≤ ('"' :: (escapeStr s ++ ['"'])).length
    simp [jsonSize]
  | arr vs =>
    cases vs with
    | nil => show jsonSize (.arr []) ≤ 2; simp [jsonSize, jsonSizeList]
    | cons v vs =>
      have h1 := jsonSize_le_len v
      have h2 := jsonSizeList_le_len vs
      show jsonSize (.arr (v :: vs))
          ≤ ('[' :: (serialize v ++ serializeTail vs ++ [']'])).length
      simp only [jsonSize, jsonSizeList, List.length_cons, List.length_append,
        List.length_singleton]
      omega
  | obj kvs =>
    cases kvs with
    | nil => show jsonSize (.obj []) ≤ 2; simp [jsonSize, jsonSizeFields]
    | cons kv kvs =>
      obtain ⟨k, w⟩ := kv
      have h1 := jsonSize_le_len w
      have h2 := jsonSizeFields_le_len kvs
      show jsonSize (.obj ((k, w) :: kvs))
          ≤ ('{' :: (serializeKV (k, w) ++ serializeKVTail kvs ++ ['}'])).length
      have hkv : (serializeKV (k, w)).length
          = 1 + (escapeStr k).length + 3 + (serialize w).length := by
        show ('"' :: (escapeStr k ++ '"' :: ':' :: ' ' :: serialize w)).length
            = 1 + (escapeStr k).length + 3 + (serialize w).length
        simp only [List.length_cons, List.length_append]
        omega
      simp only [jsonSize, jsonSizeFields, List.length_cons, List.length_append,
        List.length_singleton, hkv]
      omega

theorem jsonSizeList_le_len (vs : List Json) : jsonSizeList vs ≤ (serializeTail vs).length := by
  cases vs with
  | nil => show jsonSizeList [] ≤ 0; simp [jsonSizeList]
  | cons v vs =>
    have h1 := jsonSize_le_len v
    have h2 := jsonSizeList_le_len vs
    show jsonSizeList (v :: vs) ≤ (',' :: ' ' :: (serialize v ++ serializeTail vs)).length
    simp only [jsonSizeList, List.length_cons, List.length_append]
    omega

theorem jsonSizeFields_le_len (kvs : List (List Char × Json)) :
    jsonSizeFields kvs ≤ (serializeKVTail kvs).length := by
  cases kvs with
  | nil => show jsonSizeFields [] ≤ 0; simp [jsonSizeFields]
  | cons kv kvs =>
    obtain ⟨k, w⟩ := kv
    have h1 := jsonSize_le_len w
    have h2 := jsonSizeFields_le_len kvs
    show jsonSizeFields ((k, w) :: kvs)
        ≤ (',' :: ' ' :: (serializeKV (k, w) ++ serializeKVTail kvs)).length
    have hkv : (serializeKV (k, w)).length
        = 1 + (escapeStr k).length + 3 + (serialize w).length := by
      show ('"' :: (escapeStr k ++ '"' :: ':' :: ' ' :: serialize w)).length
          = 1 + (escapeStr k).length + 3 + (serialize w).length
      simp only [List.length_cons, List.length_append]
      omega
    simp only [jsonSizeFields, List.length_cons, List.length_append, hkv]
    omega

end

/-! ## Claim C9: parser round trip -/

theorem parseJson_space (g : Nat) (s : List Char) :
    parseJson g (' ' :: s) = parseJson g s := by
  cases g with
  | zero => rfl
  | succ g =>
    rw [parseJson.eq_2, parseJson.eq_2,
      show skipSpaces (' ' :: s) = skipSpaces s from rfl]

theorem parseItems_space (g : Nat) (s : List Char) :
    parseItems g (' ' :: s) = parseItems g s := by
  cases g with
  | zero => rfl
  | succ g => rw [parseItems.eq_2, parseItems.eq_2, parseJson_space]

theorem parseFields_space (g : Nat) (s : List Char) :
    parseFields g (' ' :: s) = parseFields g s := by
  cases g with
  | zero => rfl
  | succ g =>
    rw [parseFields.eq_2, parseFields.eq_2,
      show skipSpaces (' ' :: s) = skipSpaces s from rfl]

theorem numFence_items_rest (vs : List Json) (rest : List Char) :
    numFence (serializeTail vs ++ ']' :: rest) := by
  intro c hc
  cases vs with
  | nil =>
    simp only [serializeTail, List.nil_append, List.head?_cons] at hc
    obtain rfl := Option.some_inj.mp hc
    decide
  | cons v vs =>
    simp only [serializeTail, List.cons_append, List.head?_cons] at hc
    obtain rfl := Option.some_inj.mp hc
    decide

theorem numFence_fields_rest (kvs : List (List Char × Json)) (rest : List Char) :
    numFence (serializeKVTail kvs ++ '}' :: rest) := by
  intro c hc
  cases kvs with
  | nil =>
    simp only [serializeKVTail, List.nil_append, List.head?_cons] at hc
    obtain rfl := Option.some_inj.mp hc
    decide
  | cons kv kvs =>
    simp only [serializeKVTail, List.cons_append, List.head?_cons] at hc
    obtain rfl := Option.some_inj.mp hc
    decide

theorem parse_roundtrip : ∀ fuel : Nat,
    (∀ (v : Json) (rest : List Char), jsonSize v ≤ fuel → numFence rest →
        parseJson fuel (serialize v ++ rest) = some (v, rest))
    ∧ (∀ (v : Json) (vs : List Json) (rest : List Char),
        jsonSizeList (v :: vs) ≤ fuel →
        parseItems fuel (serialize v ++ (serializeTail vs ++ ']' :: rest))
          = some (v :: vs, rest))
    ∧ (∀ (k : List Char) (w : Json) (kvs : List (List Char × Json)) (rest : List Char),
        jsonSizeFields ((k, w) :: kvs) ≤ fuel →
        parseFields fuel (serializeKV (k, w) ++ (serializeKVTail kvs ++ '}' :: rest))
          = some ((k, w) :: kvs, rest)) := by
  intro fuel
  induction fuel with
  | zero =>
    refine ⟨fun v rest hs _ => absurd hs (by have := jsonSize_pos v; omega),
      fun v vs rest hs => absurd hs ?_, fun k w kvs rest hs => absurd hs ?_⟩
    · have := jsonSize_pos v
      simp only [jsonSizeList]
      omega
    · have := jsonSize_pos w
      simp only [jsonSizeFields]
      omega
  | succ f ih =>
    obtain ⟨ih1, ih2, ih3⟩ := ih
    refine ⟨?_, ?_, ?_⟩
    · -- parseJson on a serialized value
      intro v rest hs hf
      cases v with
      | null =>
        show parseJson (f + 1) (['n', 'u', 'l', 'l'] ++ rest) = some (.null, rest)
        rfl
      | bool b =>
        cases b with
        | true =>
          show parseJson (f + 1) (['t', 'r', 'u', 'e'] ++ rest) = some (.bool true, rest)
          rfl
        | false =>
          show parseJson (f + 1) (['f', 'a', 'l', 's', 'e'] ++ rest)
              = some (.bool false, rest)
          rfl
      | num n =>
        obtain ⟨c, cs, hser, hcd⟩ :
            ∃ c cs, intChars n = c :: cs ∧ (c = '-' ∨ isDigitCh c = true) := by
          rw [intChars]
          split_ifs with hn
          · exact ⟨'-', _, rfl, Or.inl rfl⟩
          · obtain ⟨c, cs, hh, hd⟩ := natChars_head_digit n.toNat
            exact ⟨c, cs, hh, Or.inr hd⟩
        have hspace : isJsonSpace c = false := by
          rcases hcd with rfl | hd
          · decide
          · exact isJsonSpace_false_of_digit hd
        have hcb : c.toNat = 45 ∨ (48 ≤ c.toNat ∧ c.toNat ≤ 57) := by
          rcases hcd with rfl | hd
          · left; rfl
          · right; exact isDigitCh_bounds hd
        show parseJson (f + 1) (intChars n ++ rest) = some (.num n, rest)
        rw [hser, List.cons_append, parseJson.eq_2, skipSpaces_cons_false hspace]
        simp only []
        rw [if_neg (char_ne_of_toNat (show c.toNat ≠ 'n'.toNat by simp; omega)),
          if_neg (char_ne_of_toNat (show c.toNat ≠ 't'.toNat by simp; omega)),
          if_neg (char_ne_of_toNat (show c.toNat ≠ 'f'.toNat by simp; omega)),
          if_neg (char_ne_of_toNat (show c.toNat ≠ '"'.toNat by simp; omega)),
          if_neg (char_ne_of_toNat (show c.toNat ≠ '['.toNat by simp; omega)),
          if_neg (char_ne_of_toNat (show c.toNat ≠ '{'.toNat by simp; omega)),
          if_pos (show (c = '-' || isDigitCh c) = true by
            rcases hcd with rfl | hd
            · simp
            · simp [hd]),
          show c :: (cs ++ rest) = intChars n ++ rest from by rw [hser]; rfl,
          parseNumber_intChars n rest hf]
        rfl
      | str s =>
        show (parseStringBody ((escapeStr s ++ ['"']) ++ rest)).map
            (fun p => (Json.str p.1, p.2)) = some (.str s, rest)
        rw [List.append_assoc, show ['"'] ++ rest = '"' :: rest from rfl,
          parseStringBody_escape]
        rfl
      | arr vs =>
        cases vs with
        | nil =>
          show parseJson (f + 1) (['[', ']'] ++ rest) = some (.arr [], rest)
          rfl
        | cons v vs =>
          obtain ⟨c0, cs0, hser, hsp0, hne0⟩ := serialize_head v
          have hX : (serialize v ++ serializeTail vs ++ [']']) ++ rest
              = serialize v ++ (serializeTail vs ++ ']' :: rest) := by
            simp [List.append_assoc]
          have hskip : skipSpaces (serialize v ++ (serializeTail vs ++ ']' :: rest))
              = serialize v ++ (serializeTail vs ++ ']' :: rest) := by
            rw [hser]
            exact skipSpaces_cons_false hsp0
          have hhead : (serialize v ++ (serializeTail vs ++ ']' :: rest)).head? = some c0 := by
            rw [hser]
            rfl
          show (if (skipSpaces ((serialize v ++ serializeTail vs ++ [']']) ++ rest)).head?
                  = some ']'
              then some (Json.arr [],
                (skipSpaces ((serialize v ++ serializeTail vs ++ [']']) ++ rest)).tail)
              else (parseItems f
                  (skipSpaces ((serialize v ++ serializeTail vs ++ [']']) ++ rest))).map
                fun p => (Json.arr p.1, p.2))
            = some (.arr (v :: vs), rest)
          rw [hX, hskip, hhead,
            if_neg (fun h => hne0 (Option.some_inj.mp h)),
            ih2 v vs rest (by simp only [jsonSize, jsonSizeList] at hs ⊢; omega)]
          rfl
      | obj kvs =>
        cases kvs with
        | nil =>
          show parseJson (f + 1) (['{', '}'] ++ rest) = some (.obj [], rest)
          rfl
        | cons kv kvs =>
          obtain ⟨k, w⟩ := kv
          have hX : (serializeKV (k, w) ++ serializeKVTail kvs ++ ['}']) ++ rest
              = serializeKV (k, w) ++ (serializeKVTail kvs ++ '}' :: rest) := by
            simp [List.append_assoc]
          have hskip : skipSpaces (serializeKV (k, w) ++ (serializeKVTail kvs ++ '}' :: rest))
              = serializeKV (k, w) ++ (serializeKVTail kvs ++ '}' :: rest) := by
            show skipSpaces ('"' :: ((escapeStr k ++ '"' :: ':' :: ' ' :: serialize w)
                ++ (serializeKVTail kvs ++ '}' :: rest))) = _
            exact skipSpaces_cons_false (by decide)
          have hhead : (serializeKV (k, w)
              ++ (serializeKVTail kvs ++ '}' :: rest)).head? = some '"' := rfl
          show (if (skipSpaces ((serializeKV (k, w) ++ serializeKVTail kvs ++ ['}'])
                  ++ rest)).head? = some '}'
              then some (Json.obj [],
                (skipSpaces ((serializeKV (k, w) ++ serializeKVTail kvs ++ ['}'])
                  ++ rest)).tail)
              else (parseFields f
                  (skipSpaces ((serializeKV (k, w) ++ serializeKVTail kvs ++ ['}'])
                    ++ rest))).map
                fun p => (Json.obj p.1, p.2))
            = some (.obj ((k, w) :: kvs), rest)
          rw [hX, hskip, hhead, if_neg (by simp),
            ih3 k w kvs rest (by simp only [jsonSize] at hs; omega)]
          rfl
    · -- parseItems on a serialized non-empty element list
      intro v vs rest hs
      show (parseJson f (serialize v ++ (serializeTail vs ++ ']' :: rest))).bind
          (fun p =>
            match skipSpaces p.2 with
            | ',' :: r => (parseItems f r).map fun q => (p.1 :: q.1, q.2)
            | ']' :: r => some ([p.1], r)
            | _ => none)
          = some (v :: vs, rest)
      rw [ih1 v _ (by simp only [jsonSizeList] at hs; have := jsonSize_pos v; omega)
        (numFence_items_rest vs rest)]
      simp only [Option.some_bind]
      cases vs with
      | nil => rfl
      | cons v2 vs2 =>
        show (parseItems f (' ' :: ((serialize v2 ++ serializeTail vs2) ++ ']' :: rest))).map
            (fun q => (v :: q.1, q.2)) = some (v :: v2 :: vs2, rest)
        rw [parseItems_space,
          show (serialize v2 ++ serializeTail vs2) ++ ']' :: rest
              = serialize v2 ++ (serializeTail vs2 ++ ']' :: rest) from by
            simp [List.append_assoc],
          ih2 v2 vs2 rest (by simp only [jsonSizeList] at hs ⊢; omega)]
        rfl
    · -- parseFields on a serialized non-empty member list
      intro k w kvs rest hs
      show (parseStringBody ((escapeStr k ++ '"' :: ':' :: ' ' :: serialize w)
              ++ (serializeKVTail kvs ++ '}' :: rest))).bind
          (fun pk =>
            match skipSpaces pk.2 with
            | ':' :: r2 =>
              (parseJson f r2).bind fun pv =>
                match skipSpaces pv.2 with
                | ',' :: r3 => (parseFields f r3).map fun q => ((pk.1, pv.1) :: q.1, q.2)
                | '}' :: r3 => some ([(pk.1, pv.1)], r3)
                | _ => none
            | _ => none)
          = some ((k, w) :: kvs, rest)
      rw [List.append_assoc,
        show ('"' :: ':' :: ' ' :: serialize w) ++ (serializeKVTail kvs ++ '}' :: rest)
            = '"' :: ':' :: ' ' :: (serialize w ++ (serializeKVTail kvs ++ '}' :: rest))
          from rfl,
        parseStringBody_escape]
      simp only [Option.some_bind]
      show (parseJson f (' ' :: (serialize w ++ (serializeKVTail kvs ++ '}' :: rest)))).bind
          (fun pv =>
            match skipSpaces pv.2 with
            | ',' :: r3 => (parseFields f r3).map fun q => ((k, pv.1) :: q.1, q.2)
            | '}' :: r3 => some ([(k, pv.1)], r3)
            | _ => none)
          = some ((k, w) :: kvs, rest)
      rw [parseJson_space,
        ih1 w _ (by simp only [jsonSizeFields] at hs; have := jsonSize_pos w; omega)
          (numFence_fields_rest kvs rest)]
      simp only [Option.some_bind]
      cases kvs with
      | nil => rfl
      | cons kv2 kvs2 =>
        obtain ⟨k2, w2⟩ := kv2
        show (parseFields f
            (' ' :: ((serializeKV (k2, w2) ++ serializeKVTail kvs2) ++ '}' :: rest))).map
            (fun q => ((k, w) :: q.1, q.2)) = some ((k, w) :: (k2, w2) :: kvs2, rest)
        rw [parseFields_space,
          show (serializeKV (k2, w2) ++ serializeKVTail kvs2) ++ '}' :: rest
              = serializeKV (k2, w2) ++ (serializeKVTail kvs2 ++ '}' :: rest) from by
            simp [List.append_assoc],
          ih3 k2 w2 kvs2 rest (by simp only [jsonSizeFields] at hs ⊢; omega)]
        rfl

theorem jsonLoads_serialize (v : Json) : jsonLoads (serialize v) = some v := by
  have hsize : jsonSize v ≤ 2 * (serialize v).length + 1 := by
    have := jsonSize_le_len v
    omega
  have h := (parse_roundtrip (2 * (serialize v).length + 1)).1 v [] hsize
    (fun c hc => by simp at hc)
  rw [List.append_nil] at h
  rw [jsonLoads, h]
  rfl

/-! ## Claim C9 -/

/-- **C9**: encoding a user configuration and decoding it recovers it
exactly: `decode_user_config (encode_user_config c) = c` for every JSON
configuration value `c` (objects with string keys, strings, string
lists, booleans, integers, null — the configuration dictionary built by
`/configure` is such an object).  The chain proved is
`json.loads ∘ utf-8-decode ∘ base64-decode` inverting
`base64-encode ∘ utf-8-encode ∘ json.dumps`. -/
theorem c9_config_roundtrip (config : Json) :
    decode_user_config (encode_user_config config) = some config := by
  have hb : b64DecodeBytes (b64EncodeBytes (utf8Encode (serialize config)))
      = some (utf8Encode (serialize config)) :=
    b64_roundtrip _ (utf8Encode_lt_256 _)
  simp only [decode_user_config, encode_user_config, hb, utf8_roundtrip,
    jsonLoads_serialize]

end IndCat
